import Mathlib

/-! Nagato: guild documents in the key-value store, and message dispatch.

A shallow embedding of `database.go` and `events.go`.

* Go strings are Lean strings (valid UTF-8 text), Go slices are `Slice`
  (an optional list, `none` being the nil slice).
* `time.Time` is `GoTime`: the civil reading in the value's own zone, the
  zone offset, and the monotonic clock reading that `time.Now` attaches.
* `encoding/json` is modelled on JSON values (`JSON`): `jsonMarshal` and
  `jsonUnmarshal` follow the library's rules for structs, slices, strings,
  integers and `time.Time` (RFC 3339 text).
* The redigo pool `p` is part of `World`: the key space, a schedule of
  connection failures, the clock and the process log.
-/

namespace Nagato

/-! ## Go values -/

/-- Go slice: `none` is the nil slice, `some xs` a non-nil slice. -/
abbrev Slice (α : Type) := Option (List α)

/-- Elements of a slice, as `range` visits them. -/
def Slice.elems {α : Type} (s : Slice α) : List α := s.getD []

/-- Go `append(s, x)`. -/
def Slice.append {α : Type} (s : Slice α) (x : α) : Slice α := some (Slice.elems s ++ [x])

/-- Go `time.Time`: civil fields as read in the value's own location, the
location's offset in seconds east of UTC, and the monotonic clock reading
(present on values returned by `time.Now`). -/
structure GoTime where
  year : Int
  month : Nat
  day : Nat
  hour : Nat
  minute : Nat
  second : Nat
  nsec : Nat
  offset : Int
  mono : Option Nat
deriving DecidableEq, Repr

/-- Go zero `time.Time{}`: January 1, year 1, 00:00:00 UTC. -/
def GoTime.zero : GoTime :=
  { year := 1, month := 1, day := 1, hour := 0, minute := 0, second := 0, nsec := 0,
    offset := 0, mono := none }

/-- Wall-clock part of a time: the value without its monotonic reading
(Go `t.Round(0)`). -/
def GoTime.wall (t : GoTime) : GoTime := { t with mono := none }

/-- Leap years of the proleptic Gregorian calendar (Go `isLeap`). -/
def isLeap (year : Nat) : Bool :=
  year % 4 == 0 && (year % 100 != 0 || year % 400 == 0)

/-- Go `daysIn(month, year)`. -/
def daysIn (month year : Nat) : Nat :=
  if month == 2 then (if isLeap year then 29 else 28)
  else if month == 4 || month == 6 || month == 9 || month == 11 then 30
  else 31

/-! ## RFC 3339 text of a time -/

/-- Decimal digit character of `d % 10`. -/
def digitChar (d : Nat) : Char := Char.ofNat (48 + d % 10)

/-- Go `appendInt(b, n, w)` for `n < 10 ^ w`: `n` in exactly `w` decimal digits. -/
def digitsFixed : Nat → Nat → List Char
  | 0, _ => []
  | w + 1, n => digitsFixed w (n / 10) ++ [digitChar n]

/-- Drop the trailing zeros of a digit string. -/
def trimZeros (l : List Char) : List Char :=
  (l.reverse.dropWhile (fun c => c == '0')).reverse

/-- Fractional second of `RFC3339Nano` (layout `.999999999`): nothing when
zero, else a period and nine digits without trailing zeros. -/
def formatFrac (nsec : Nat) : List Char :=
  if nsec = 0 then [] else '.' :: trimZeros (digitsFixed 9 nsec)

/-- Zone of layout `Z07:00`: `Z` for offset zero, else sign, hours, colon,
minutes of the offset truncated to minutes. -/
def formatZone (offset : Int) : List Char :=
  if offset = 0 then ['Z']
  else
    let zone := Int.tdiv offset 60
    let sign := if zone < 0 then '-' else '+'
    let z := zone.natAbs
    sign :: (digitsFixed 2 (z / 60) ++ ':' :: digitsFixed 2 (z % 60))

/-- Go `t.AppendFormat(b, time.RFC3339Nano)` for a year in `[0, 9999]`. -/
def formatRFC3339 (t : GoTime) : List Char :=
  digitsFixed 4 t.year.toNat ++ '-' :: digitsFixed 2 t.month ++ '-' :: digitsFixed 2 t.day
    ++ 'T' :: digitsFixed 2 t.hour ++ ':' :: digitsFixed 2 t.minute ++ ':' :: digitsFixed 2 t.second
    ++ formatFrac t.nsec ++ formatZone t.offset

/-- Value of a decimal digit character, if it is one. -/
def digitVal (c : Char) : Option Nat :=
  if 48 ≤ c.toNat ∧ c.toNat ≤ 57 then some (c.toNat - 48) else none

/-- Go `parseUint` without the range check: the value of a digit string,
`none` when a character is not a digit. -/
def digitsVal : List Char → Option Nat
  | l => l.foldl (fun acc c => match acc, digitVal c with
      | some a, some d => some (a * 10 + d)
      | _, _ => none) (some 0)

/-- Go `parseUint(s, lo, hi)` of `parseRFC3339`. -/
def parseUint (s : List Char) (lo hi : Nat) : Option Nat :=
  match digitsVal s with
  | some x => if lo ≤ x ∧ x ≤ hi then some x else none
  | none => none

/-- Go `parseNanoseconds`: the digits after the period, read as a fraction of
a second in nanoseconds; digits past the ninth are dropped. -/
def parseNanos (ds : List Char) : Option Nat :=
  digitsVal ((ds ++ List.replicate 9 '0').take 9)

/-- Zone suffix of `parseRFC3339`: `Z`, or a sign, two digits below 24, a
colon and two digits below 60. The result is the offset in seconds. -/
def parseZone : List Char → Option Int
  | ['Z'] => some 0
  | [sg, h1, h2, c, m1, m2] =>
    match parseUint [h1, h2] 0 23, parseUint [m1, m2] 0 59 with
    | some hr, some mm =>
      if c = ':' then
        if sg = '+' then some (((hr * 60 + mm) * 60 : Nat) : Int)
        else if sg = '-' then some (-(((hr * 60 + mm) * 60 : Nat) : Int))
        else none
      else none
    | _, _ => none
  | _ => none

/-- Fraction and zone after the seconds: an optional period with at least
one digit, then the zone. -/
def parseFracZone (s : List Char) : Option (Nat × Int) :=
  match s with
  | '.' :: d :: rest =>
    if (digitVal d).isSome then
      let ds := d :: rest.takeWhile (fun c => (digitVal c).isSome)
      let tl := rest.dropWhile (fun c => (digitVal c).isSome)
      match parseNanos ds, parseZone tl with
      | some ns, some off => some (ns, off)
      | _, _ => none
    else parseZone s |>.map (fun off => (0, off))
  | _ => parseZone s |>.map (fun off => (0, off))

/-- Go `parseRFC3339`, the grammar `Time.UnmarshalJSON` accepts. The civil
fields read are those of the result in its own zone; the result carries no
monotonic reading. -/
def parseRFC3339 (s : List Char) : Option GoTime :=
  match s with
  | y1 :: y2 :: y3 :: y4 :: c1 :: mo1 :: mo2 :: c2 :: d1 :: d2 :: c3 :: h1 :: h2 :: c4
      :: mi1 :: mi2 :: c5 :: s1 :: s2 :: rest =>
    match parseUint [y1, y2, y3, y4] 0 9999, parseUint [mo1, mo2] 1 12 with
    | some year, some month =>
      match parseUint [d1, d2] 1 (daysIn month year), parseUint [h1, h2] 0 23,
          parseUint [mi1, mi2] 0 59, parseUint [s1, s2] 0 59 with
      | some day, some hour, some minute, some second =>
        if c1 = '-' ∧ c2 = '-' ∧ c3 = 'T' ∧ c4 = ':' ∧ c5 = ':' then
          match parseFracZone rest with
          | some (ns, off) =>
            some { year := (year : Int), month := month, day := day, hour := hour,
                   minute := minute, second := second, nsec := ns, offset := off, mono := none }
          | none => none
        else none
      | _, _, _, _ => none
    | _, _ => none
  | _ => none

/-- Condition under which `Time.MarshalJSON` succeeds: the year lies in
`[0, 9999]`. -/
def GoTime.yearInRange (t : GoTime) : Bool := decide (0 ≤ t.year) && decide (t.year ≤ 9999)

/-- Representation invariant of a `GoTime`: the civil fields name a real
instant, and the zone offset is a whole number of minutes below a day (as
every zone of the time-zone database in current use). -/
def GoTime.Valid (t : GoTime) : Prop :=
  1 ≤ t.month ∧ t.month ≤ 12 ∧ 1 ≤ t.day ∧ t.day ≤ daysIn t.month t.year.toNat ∧
  t.hour ≤ 23 ∧ t.minute ≤ 59 ∧ t.second ≤ 59 ∧ t.nsec < 1000000000 ∧
  t.offset % 60 = 0 ∧ -86400 < t.offset ∧ t.offset < 86400

instance (t : GoTime) : Decidable t.Valid := by
  unfold GoTime.Valid; infer_instance


/-! ## The guild document (`database.go`, lines 15-78) -/

/-- Go structs `Warnings`, `Kicks` and `Bans`: three types of one shape. -/
structure Entry where
  Channel : String
  Reason : String
  Time : GoTime
deriving DecidableEq, Repr

/-- Warnings information for a user. -/
abbrev Warnings := Entry

/-- Kicks information for a user. -/
abbrev Kicks := Entry

/-- Bans information for a user. -/
abbrev Bans := Entry

/-- Mutes information for a user; `Length` is a `time.Duration` (int64). -/
structure Mutes where
  Channel : String
  Reason : String
  Time : GoTime
  Length : Int
deriving DecidableEq, Repr

/-- User information. -/
structure User where
  Username : String
  Discriminator : String
  Nickname : String
  ID : String
  Age : String
  JoinedAt : String
  PreviousUsernames : Slice String
  PreviousNicknames : Slice String
  Roles : Slice String
  Warnings : Slice Warnings
  Kicks : Slice Kicks
  Bans : Slice Bans
  Mutes : Slice Mutes
deriving DecidableEq, Repr

/-- Guild configuration information per guild. -/
structure Guild where
  GuildName : String
  GuildPrefix : String
  GuildID : String
  Users : Slice User
  BlacklistedChannels : Slice String
  BlacklistedMembers : Slice String
  WelcomeMessage : String
  WelcomeChannel : String
  GoodbyeMessage : String
  GoodbyeChannel : String
  Events : Slice String
  DisabledCommands : Slice String
  BirthdayRole : String
  MutedRole : String
  AutoRole : Slice String
deriving DecidableEq, Repr

/-- Zero value of `Entry`. -/
def Entry.zero : Entry := { Channel := "", Reason := "", Time := GoTime.zero }

/-- Zero value of `Mutes`. -/
def Mutes.zero : Mutes := { Channel := "", Reason := "", Time := GoTime.zero, Length := 0 }

/-- Zero value of `User`. -/
def User.zero : User :=
  { Username := "", Discriminator := "", Nickname := "", ID := "", Age := "", JoinedAt := "",
    PreviousUsernames := none, PreviousNicknames := none, Roles := none,
    Warnings := none, Kicks := none, Bans := none, Mutes := none }

/-- Zero value of `Guild`, what `var g Guild` declares. -/
def Guild.zero : Guild :=
  { GuildName := "", GuildPrefix := "", GuildID := "", Users := none,
    BlacklistedChannels := none, BlacklistedMembers := none,
    WelcomeMessage := "", WelcomeChannel := "", GoodbyeMessage := "", GoodbyeChannel := "",
    Events := none, DisabledCommands := none, BirthdayRole := "", MutedRole := "",
    AutoRole := none }

/-! ## `encoding/json` on JSON values -/

/-- JSON value: what a JSON text denotes. `num` is a number literal that is
an integer, `frac` one with a fraction or an exponent (kept as written). -/
inductive JSON where
  | null
  | bool (b : Bool)
  | num (n : Int)
  | frac (lit : String)
  | str (s : String)
  | arr (xs : List JSON)
  | obj (kvs : List (String × JSON))

/-- Byte string as the store holds it and the codec reads it: a JSON text,
held as the value it denotes, or bytes that are not a JSON text (among them
the empty byte string). -/
inductive Bytes where
  | json (v : JSON)
  | raw (b : List Nat)

/-- Errors of the store client and the codec. -/
inductive Err where
  | conn
  | nilReply
  | badJSON
  | typeMismatch
  | timeText
  | yearOutOfRange
  | stateNotFound
deriving DecidableEq, Repr

/-- How decoding one value ended: `ok`; `saved`, an `UnmarshalTypeError` was
recorded and decoding went on; `abort`, `Time.UnmarshalJSON` returned an
error and decoding stopped. -/
inductive Flow where
  | ok
  | saved
  | abort
deriving DecidableEq, Repr

/-- Outcome of two decoding steps in sequence. -/
def Flow.seq : Flow → Flow → Flow
  | .abort, _ => .abort
  | _, .abort => .abort
  | .saved, _ => .saved
  | _, .saved => .saved
  | .ok, .ok => .ok

/-- Case folding of a key character as `encoding/json` compares it with an
ASCII field name: ASCII letters fold to lower case, the long s to `s` and
the Kelvin sign to `k`. -/
def foldRune (c : Char) : Char :=
  if c = '\u017f' then 's' else if c = '\u212a' then 'k' else c.toLower

/-- Case-insensitive match of an object key with a field name. -/
def matchKey (field key : String) : Bool :=
  key.data.map foldRune == field.data.map Char.toLower

/-- Field a key decodes into: the field of that exact name, else the first
field matching case-insensitively. -/
def findField (fields : List String) (key : String) : Option Nat :=
  match fields.indexOf? key with
  | some i => some i
  | none => fields.findIdx? (fun f => matchKey f key)

/-- Decoding the members of a JSON object into a struct, in the order of
the text: an unknown key is skipped, decoding stops at an `abort`. -/
def decodeObject {α : Type} (fields : List String) (step : α → Nat → JSON → α × Flow) :
    α → List (String × JSON) → α × Flow
  | a, [] => (a, .ok)
  | a, (k, v) :: rest =>
    match findField fields k with
    | none => decodeObject fields step a rest
    | some i =>
      match step a i v with
      | (a1, .abort) => (a1, .abort)
      | (a1, f) =>
        let r := decodeObject fields step a1 rest
        (r.1, f.seq r.2)

/-- Decoding a JSON value into a struct: `null` leaves it alone, an object
is decoded member by member, anything else is a type error. -/
def decodeStruct {α : Type} (fields : List String) (step : α → Nat → JSON → α × Flow)
    (cur : α) (v : JSON) : α × Flow :=
  match v with
  | .null => (cur, .ok)
  | .obj kvs => decodeObject fields step cur kvs
  | _ => (cur, .saved)

/-- Decoding the elements of a JSON array into a slice: element `i` is
decoded into the slice element already at `i`, or into a zero value past
the end; at an `abort` the elements not yet reached stay. -/
def decodeArrayInto {α : Type} (dec : α → JSON → α × Flow) (zero : α) :
    List α → List JSON → List α × Flow
  | _, [] => ([], .ok)
  | cur, x :: xs =>
    match dec (cur.headD zero) x with
    | (a, .abort) => (a :: cur.tail, .abort)
    | (a, f) =>
      let r := decodeArrayInto dec zero cur.tail xs
      (a :: r.1, f.seq r.2)

/-- Decoding a JSON value into a slice: `null` gives the nil slice, an
array a non-nil slice of its elements, anything else is a type error. -/
def decodeSlice {α : Type} (dec : α → JSON → α × Flow) (zero : α) (cur : Slice α) (v : JSON) :
    Slice α × Flow :=
  match v with
  | .null => (none, .ok)
  | .arr xs =>
    let r := decodeArrayInto dec zero (Slice.elems cur) xs
    (some r.1, r.2)
  | _ => (cur, .saved)

/-- Decoding a JSON value into a string. -/
def decodeString (cur : String) (v : JSON) : String × Flow :=
  match v with
  | .str s => (s, .ok)
  | .null => (cur, .ok)
  | _ => (cur, .saved)

/-- Decoding a JSON value into an int64: the literal must be an integer in
range. -/
def decodeInt64 (cur : Int) (v : JSON) : Int × Flow :=
  match v with
  | .num n => if -9223372036854775808 ≤ n ∧ n ≤ 9223372036854775807 then (n, .ok) else (cur, .saved)
  | .null => (cur, .ok)
  | _ => (cur, .saved)

/-- Decoding into a `time.Time` through `Time.UnmarshalJSON`: `null` is
ignored; a string is parsed as RFC 3339, and on failure the time is reset to
zero and the error returned; any other value is an error. -/
def decodeTime (cur : GoTime) (v : JSON) : GoTime × Flow :=
  match v with
  | .null => (cur, .ok)
  | .str s =>
    match parseRFC3339 s.data with
    | some t => (t, .ok)
    | none => (GoTime.zero, .abort)
  | _ => (cur, .abort)

/-- Field names of `Warnings`, `Kicks` and `Bans`. -/
def entryFields : List String := ["Channel", "Reason", "Time"]

/-- Field names of `Mutes`. -/
def mutesFields : List String := ["Channel", "Reason", "Time", "Length"]

/-- Field names of `User`. -/
def userFields : List String :=
  ["Username", "Discriminator", "Nickname", "ID", "Age", "JoinedAt", "PreviousUsernames",
   "PreviousNicknames", "Roles", "Warnings", "Kicks", "Bans", "Mutes"]

/-- Field names of `Guild`. -/
def guildFields : List String :=
  ["GuildName", "GuildPrefix", "GuildID", "Users", "BlacklistedChannels", "BlacklistedMembers",
   "WelcomeMessage", "WelcomeChannel", "GoodbyeMessage", "GoodbyeChannel", "Events",
   "DisabledCommands", "BirthdayRole", "MutedRole", "AutoRole"]

/-- Decoding a value into field `i` of an `Entry`. -/
def decodeEntryField (e : Entry) (i : Nat) (v : JSON) : Entry × Flow :=
  match i with
  | 0 => let r := decodeString e.Channel v; ({ e with Channel := r.1 }, r.2)
  | 1 => let r := decodeString e.Reason v; ({ e with Reason := r.1 }, r.2)
  | _ => let r := decodeTime e.Time v; ({ e with Time := r.1 }, r.2)

/-- Decoding a value into field `i` of a `Mutes`. -/
def decodeMutesField (e : Mutes) (i : Nat) (v : JSON) : Mutes × Flow :=
  match i with
  | 0 => let r := decodeString e.Channel v; ({ e with Channel := r.1 }, r.2)
  | 1 => let r := decodeString e.Reason v; ({ e with Reason := r.1 }, r.2)
  | 2 => let r := decodeTime e.Time v; ({ e with Time := r.1 }, r.2)
  | _ => let r := decodeInt64 e.Length v; ({ e with Length := r.1 }, r.2)

/-- Decoding a value into an `Entry`. -/
def decodeEntry (cur : Entry) (v : JSON) : Entry × Flow :=
  decodeStruct entryFields decodeEntryField cur v

/-- Decoding a value into a `Mutes`. -/
def decodeMutes (cur : Mutes) (v : JSON) : Mutes × Flow :=
  decodeStruct mutesFields decodeMutesField cur v

/-- Decoding a value into a `[]string`. -/
def decodeStrings (cur : Slice String) (v : JSON) : Slice String × Flow :=
  decodeSlice decodeString "" cur v

/-- Decoding a value into field `i` of a `User`. -/
def decodeUserField (u : User) (i : Nat) (v : JSON) : User × Flow :=
  match i with
  | 0 => let r := decodeString u.Username v; ({ u with Username := r.1 }, r.2)
  | 1 => let r := decodeString u.Discriminator v; ({ u with Discriminator := r.1 }, r.2)
  | 2 => let r := decodeString u.Nickname v; ({ u with Nickname := r.1 }, r.2)
  | 3 => let r := decodeString u.ID v; ({ u with ID := r.1 }, r.2)
  | 4 => let r := decodeString u.Age v; ({ u with Age := r.1 }, r.2)
  | 5 => let r := decodeString u.JoinedAt v; ({ u with JoinedAt := r.1 }, r.2)
  | 6 => let r := decodeStrings u.PreviousUsernames v; ({ u with PreviousUsernames := r.1 }, r.2)
  | 7 => let r := decodeStrings u.PreviousNicknames v; ({ u with PreviousNicknames := r.1 }, r.2)
  | 8 => let r := decodeStrings u.Roles v; ({ u with Roles := r.1 }, r.2)
  | 9 => let r := decodeSlice decodeEntry Entry.zero u.Warnings v; ({ u with Warnings := r.1 }, r.2)
  | 10 => let r := decodeSlice decodeEntry Entry.zero u.Kicks v; ({ u with Kicks := r.1 }, r.2)
  | 11 => let r := decodeSlice decodeEntry Entry.zero u.Bans v; ({ u with Bans := r.1 }, r.2)
  | _ => let r := decodeSlice decodeMutes Mutes.zero u.Mutes v; ({ u with Mutes := r.1 }, r.2)

/-- Decoding a value into a `User`. -/
def decodeUser (cur : User) (v : JSON) : User × Flow :=
  decodeStruct userFields decodeUserField cur v

/-- Decoding a value into field `i` of a `Guild`. -/
def decodeGuildField (g : Guild) (i : Nat) (v : JSON) : Guild × Flow :=
  match i with
  | 0 => let r := decodeString g.GuildName v; ({ g with GuildName := r.1 }, r.2)
  | 1 => let r := decodeString g.GuildPrefix v; ({ g with GuildPrefix := r.1 }, r.2)
  | 2 => let r := decodeString g.GuildID v; ({ g with GuildID := r.1 }, r.2)
  | 3 => let r := decodeSlice decodeUser User.zero g.Users v; ({ g with Users := r.1 }, r.2)
  | 4 => let r := decodeStrings g.BlacklistedChannels v; ({ g with BlacklistedChannels := r.1 }, r.2)
  | 5 => let r := decodeStrings g.BlacklistedMembers v; ({ g with BlacklistedMembers := r.1 }, r.2)
  | 6 => let r := decodeString g.WelcomeMessage v; ({ g with WelcomeMessage := r.1 }, r.2)
  | 7 => let r := decodeString g.WelcomeChannel v; ({ g with WelcomeChannel := r.1 }, r.2)
  | 8 => let r := decodeString g.GoodbyeMessage v; ({ g with GoodbyeMessage := r.1 }, r.2)
  | 9 => let r := decodeString g.GoodbyeChannel v; ({ g with GoodbyeChannel := r.1 }, r.2)
  | 10 => let r := decodeStrings g.Events v; ({ g with Events := r.1 }, r.2)
  | 11 => let r := decodeStrings g.DisabledCommands v; ({ g with DisabledCommands := r.1 }, r.2)
  | 12 => let r := decodeString g.BirthdayRole v; ({ g with BirthdayRole := r.1 }, r.2)
  | 13 => let r := decodeString g.MutedRole v; ({ g with MutedRole := r.1 }, r.2)
  | _ => let r := decodeStrings g.AutoRole v; ({ g with AutoRole := r.1 }, r.2)

/-- Go `json.Unmarshal(data, &g)`: the value of `g` afterwards and the
error returned. Bytes that are not a JSON text leave `g` untouched. -/
def jsonUnmarshal (data : Bytes) (g : Guild) : Guild × Option Err :=
  match data with
  | .raw _ => (g, some .badJSON)
  | .json v =>
    match decodeStruct guildFields decodeGuildField g v with
    | (g1, .ok) => (g1, none)
    | (g1, .saved) => (g1, some .typeMismatch)
    | (g1, .abort) => (g1, some .timeText)

/-- JSON of a `time.Time`: its RFC 3339 text. -/
def encodeTime (t : GoTime) : JSON := .str (String.mk (formatRFC3339 t))

/-- JSON of a slice: `null` for the nil slice, else the array of its elements. -/
def encodeSlice {α : Type} (enc : α → JSON) : Slice α → JSON
  | none => .null
  | some xs => .arr (xs.map enc)

/-- JSON of an `Entry`. -/
def encodeEntry (e : Entry) : JSON :=
  .obj [("Channel", .str e.Channel), ("Reason", .str e.Reason), ("Time", encodeTime e.Time)]

/-- JSON of a `Mutes`. -/
def encodeMutes (e : Mutes) : JSON :=
  .obj [("Channel", .str e.Channel), ("Reason", .str e.Reason), ("Time", encodeTime e.Time),
        ("Length", .num e.Length)]

/-- JSON of a `User`. -/
def encodeUser (u : User) : JSON :=
  .obj [("Username", .str u.Username), ("Discriminator", .str u.Discriminator),
        ("Nickname", .str u.Nickname), ("ID", .str u.ID), ("Age", .str u.Age),
        ("JoinedAt", .str u.JoinedAt),
        ("PreviousUsernames", encodeSlice JSON.str u.PreviousUsernames),
        ("PreviousNicknames", encodeSlice JSON.str u.PreviousNicknames),
        ("Roles", encodeSlice JSON.str u.Roles),
        ("Warnings", encodeSlice encodeEntry u.Warnings),
        ("Kicks", encodeSlice encodeEntry u.Kicks),
        ("Bans", encodeSlice encodeEntry u.Bans),
        ("Mutes", encodeSlice encodeMutes u.Mutes)]

/-- JSON of a `Guild`. -/
def encodeGuild (g : Guild) : JSON :=
  .obj [("GuildName", .str g.GuildName), ("GuildPrefix", .str g.GuildPrefix),
        ("GuildID", .str g.GuildID), ("Users", encodeSlice encodeUser g.Users),
        ("BlacklistedChannels", encodeSlice JSON.str g.BlacklistedChannels),
        ("BlacklistedMembers", encodeSlice JSON.str g.BlacklistedMembers),
        ("WelcomeMessage", .str g.WelcomeMessage), ("WelcomeChannel", .str g.WelcomeChannel),
        ("GoodbyeMessage", .str g.GoodbyeMessage), ("GoodbyeChannel", .str g.GoodbyeChannel),
        ("Events", encodeSlice JSON.str g.Events),
        ("DisabledCommands", encodeSlice JSON.str g.DisabledCommands),
        ("BirthdayRole", .str g.BirthdayRole), ("MutedRole", .str g.MutedRole),
        ("AutoRole", encodeSlice JSON.str g.AutoRole)]

/-- Times held by a user record, in encoding order. -/
def User.times (u : User) : List GoTime :=
  (Slice.elems u.Warnings).map (fun e => e.Time) ++ (Slice.elems u.Kicks).map (fun e => e.Time)
    ++ (Slice.elems u.Bans).map (fun e => e.Time) ++ (Slice.elems u.Mutes).map (fun e => e.Time)

/-- Times held by a guild document. -/
def Guild.times (g : Guild) : List GoTime :=
  (Slice.elems g.Users).flatMap User.times

/-- Go `json.Marshal(g)`: fails when `Time.MarshalJSON` fails on a time of
the document, else gives the JSON text of the document. -/
def jsonMarshal (g : Guild) : Except Err Bytes :=
  if g.times.all GoTime.yearInRange then .ok (.json (encodeGuild g)) else .error .yearOutOfRange


/-! ## What the encoding keeps of a document -/

/-- An entry as the encoding keeps it: the time without its monotonic reading. -/
def Entry.wall (e : Entry) : Entry := { e with Time := e.Time.wall }

/-- A mute as the encoding keeps it. -/
def Mutes.wall (e : Mutes) : Mutes := { e with Time := e.Time.wall }

/-- A user record as the encoding keeps it. -/
def User.wall (u : User) : User :=
  { u with Warnings := u.Warnings.map (List.map Entry.wall),
           Kicks := u.Kicks.map (List.map Entry.wall),
           Bans := u.Bans.map (List.map Entry.wall),
           Mutes := u.Mutes.map (List.map Mutes.wall) }

/-- A document as the encoding keeps it. -/
def Guild.wall (g : Guild) : Guild := { g with Users := g.Users.map (List.map User.wall) }

/-- An entry the codec can carry: a valid time with a year in `[0, 9999]`. -/
def Entry.Encodable (e : Entry) : Prop := e.Time.Valid ∧ e.Time.yearInRange = true

/-- A mute the codec can carry: as an entry, with an int64 `Length`. -/
def Mutes.Encodable (e : Mutes) : Prop :=
  e.Time.Valid ∧ e.Time.yearInRange = true ∧
    -9223372036854775808 ≤ e.Length ∧ e.Length ≤ 9223372036854775807

/-- A user record the codec can carry. -/
def User.Encodable (u : User) : Prop :=
  (∀ e ∈ Slice.elems u.Warnings, Entry.Encodable e) ∧ (∀ e ∈ Slice.elems u.Kicks, Entry.Encodable e) ∧
  (∀ e ∈ Slice.elems u.Bans, Entry.Encodable e) ∧ (∀ e ∈ Slice.elems u.Mutes, Mutes.Encodable e)

/-- A document the codec can carry. -/
def Guild.Encodable (g : Guild) : Prop := ∀ u ∈ Slice.elems g.Users, User.Encodable u

/-- Well-formed entry: the codec can carry it, and its time has no
monotonic clock reading. -/
def Entry.WellFormed (e : Entry) : Prop := e.Encodable ∧ e.Time.mono = none

/-- Well-formed mute. -/
def Mutes.WellFormed (e : Mutes) : Prop := e.Encodable ∧ e.Time.mono = none

/-- Well-formed user record: every entry of its four histories is. -/
def User.WellFormed (u : User) : Prop :=
  (∀ e ∈ Slice.elems u.Warnings, Entry.WellFormed e) ∧
  (∀ e ∈ Slice.elems u.Kicks, Entry.WellFormed e) ∧
  (∀ e ∈ Slice.elems u.Bans, Entry.WellFormed e) ∧
  (∀ e ∈ Slice.elems u.Mutes, Mutes.WellFormed e)

/-- Well-formed document: every time in it is a valid time with a year in
`[0, 9999]` and without monotonic clock reading, every `Length` an int64. -/
def Guild.WellFormed (g : Guild) : Prop := ∀ u ∈ Slice.elems g.Users, User.WellFormed u

instance (e : Entry) : Decidable e.WellFormed := by
  unfold Entry.WellFormed Entry.Encodable; infer_instance

instance (e : Mutes) : Decidable e.WellFormed := by
  unfold Mutes.WellFormed Mutes.Encodable; infer_instance

instance (u : User) : Decidable u.WellFormed := by
  unfold User.WellFormed; infer_instance

instance (g : Guild) : Decidable g.WellFormed := by
  unfold Guild.WellFormed; infer_instance

/-! ## Package `strings` -/

namespace strings

/-- Go `strings.HasPrefix(s, p)`. -/
def HasPrefix (s p : String) : Bool := p.data.isPrefixOf s.data

/-- Go `strings.TrimPrefix(s, p)`. -/
def TrimPrefix (s p : String) : String :=
  if HasPrefix s p then String.mk (s.data.drop p.data.length) else s

/-- Go `strings.Index(s, sep)`: position of the first occurrence of `sep`. -/
def Index (sep : List Char) : List Char → Option Nat
  | [] => if sep.isPrefixOf [] then some 0 else none
  | c :: cs => if sep.isPrefixOf (c :: cs) then some 0 else (Index sep cs).map (fun i => i + 1)

/-- Loop of `genSplit` for a non-empty separator: cut at each occurrence
found in turn. The loop runs at most `len(s)` times; the bound is given as
fuel, and more fuel than `len(s)` changes nothing (`splitLoop_stable`). -/
def splitLoop (sep : List Char) : Nat → List Char → List (List Char)
  | 0, s => [s]
  | fuel + 1, s =>
    match Index sep s with
    | none => [s]
    | some m => s.take m :: splitLoop sep fuel (s.drop (m + sep.length))

/-- Go `strings.Split(s, sep)`: with an empty separator the string is
exploded into its characters (no piece at all for the empty string). -/
def Split (s sep : String) : List String :=
  if sep.data = [] then s.data.map (fun c => String.mk [c])
  else (splitLoop sep.data (s.data.length + 1) s.data).map String.mk

end strings

/-! ## The store behind the pool `p` -/

/-- Go `interface{}` values compared or returned here: what redigo gives as
a reply (nil, int64 for an integer reply, `[]byte` for a bulk reply, the
simple string `OK`), and `int`, the dynamic type the untyped constant `1`
takes in `n == 1`. -/
inductive Reply where
  | nil
  | int (n : Int)
  | int64 (n : Int)
  | bulk (b : Bytes)
  | statusOK

/-- Commands sent with `p.Do`. -/
inductive Cmd where
  | GET (key : String)
  | SET (key : String) (value : Bytes)
  | SETNX (key : String) (value : Bytes)
  | EXISTS (key : String)
  | DEL (key : String)

/-- Lines written with `log.Println`. -/
inductive LogLine where
  | error (e : Err)
  | guildAdded (name id : String)
  | guildRemoved (name id : String)
deriving DecidableEq, Repr

/-- State around the handlers: the key space of the store, for each coming
command whether the connection fails (`true`), the readings `time.Now`
returns in turn and how many were taken, and the log. -/
structure World where
  kv : String → Option Bytes
  faults : List Bool
  clock : Nat → GoTime
  ticks : Nat
  log : List LogLine

/-- Go `log.Println(err)`. -/
def World.logError (w : World) (e : Err) : World := { w with log := w.log ++ [.error e] }

/-- Go `if err != nil { log.Println(err) }`. -/
def World.logIfError (w : World) (e : Option Err) : World :=
  match e with
  | some e => w.logError e
  | none => w

/-- Go `time.Now()`. -/
def timeNow (w : World) : World × GoTime := ({ w with ticks := w.ticks + 1 }, w.clock w.ticks)

/-- Go `p.Do(cmd, args...)`: reply and error. A failed connection leaves
the key space as it is. -/
def Do (w : World) (c : Cmd) : World × Reply × Option Err :=
  match w.faults with
  | true :: fs => ({ w with faults := fs }, .nil, some .conn)
  | fs0 =>
    let w1 := { w with faults := fs0.tail }
    match c with
    | .GET k =>
      match w.kv k with
      | some b => (w1, .bulk b, none)
      | none => (w1, .nil, none)
    | .SET k v => ({ w1 with kv := Function.update w.kv k (some v) }, .statusOK, none)
    | .SETNX k v =>
      match w.kv k with
      | some _ => (w1, .int64 0, none)
      | none => ({ w1 with kv := Function.update w.kv k (some v) }, .int64 1, none)
    | .EXISTS k =>
      match w.kv k with
      | some _ => (w1, .int64 1, none)
      | none => (w1, .int64 0, none)
    | .DEL k =>
      match w.kv k with
      | some _ => ({ w1 with kv := Function.update w.kv k none }, .int64 1, none)
      | none => (w1, .int64 0, none)

/-- Go `redis.Bytes(reply, err)`; nil `[]byte` is the empty byte string. -/
def redisBytes (r : Reply × Option Err) : Bytes × Option Err :=
  match r with
  | (_, some e) => (.raw [], some e)
  | (.bulk b, none) => (b, none)
  | (.statusOK, none) => (.raw [79, 75], none)
  | (.nil, none) => (.raw [], some .nilReply)
  | (_, none) => (.raw [], some .typeMismatch)

/-! ## discordgo values -/

namespace discordgo

/-- Channel kinds of discordgo. -/
inductive ChannelType where
  | GuildText
  | DM
  | GuildVoice
  | GroupDM
  | GuildCategory
deriving DecidableEq, Repr

/-- Fields read of `discordgo.Channel`; `Kind` is the Go field `Type`. -/
structure Channel where
  ID : String
  Name : String
  GuildID : String
  Kind : ChannelType
deriving DecidableEq, Repr

/-- Fields read of `discordgo.User`. -/
structure User where
  ID : String
  Username : String
  Discriminator : String
deriving DecidableEq, Repr

/-- Fields read of `discordgo.Member`. -/
structure Member where
  User : User
  Nick : String
  JoinedAt : String
deriving DecidableEq, Repr

/-- Fields read of `discordgo.Guild`. -/
structure Guild where
  ID : String
  Name : String
  Members : List Member
deriving DecidableEq, Repr

end discordgo

/-- Fields read of a command of the command table. -/
structure Command where
  Name : String
  ArgsDelim : String
deriving DecidableEq, Repr

/-- Context of one event; `Channel` and `Guild` are pointers, `none` being nil. -/
structure Context where
  Content : String
  Channel : Option discordgo.Channel
  Guild : Option discordgo.Guild
  Name : String
  Command : Command
  Args : List String
deriving DecidableEq, Repr

/-- Parts of the program outside `database.go` and `events.go`, taken as
given: the configured default prefix, the command table lookups, the
validity check, and the two time texts of a member record (`CreationTime`
of an ID and the parsed join date, each formatted; the parse error if any). -/
structure Env where
  confPrefix : String
  FetchCommand : String → Command
  FetchCommandName : String → String
  CommandIsValid : Context → Bool
  creationAge : String → String
  joinedAt : String → String × Option Err

/-- How a handler ended: it returned, or it panicked, with the error whose
text it passed to `panic`, or with `none` for a nil pointer dereference. -/
inductive Outcome where
  | returned
  | panicked (e : Option Err)
deriving DecidableEq, Repr

/-! ## `database.go` -/

/-- DeleteGuild removes a guild from the database. -/
def DeleteGuild (w : World) (guild : discordgo.Guild) : World × Reply × Option Err :=
  match Do w (.DEL guild.ID) with
  | (w1, n, some e) => (w1.logError e, n, some e)
  | (w1, n, none) => (w1, n, none)

/-- GuildExists returns true if guild key exists, false if not. The test
`n == 1` compares the reply with the `int` one. -/
def GuildExists (w : World) (guild : discordgo.Guild) : World × Bool :=
  match Do w (.EXISTS guild.ID) with
  | (w1, n, err) =>
    let w2 := w1.logIfError err
    match n with
    | .int 1 => (w2, true)
    | _ => (w2, false)

/-- InitializeUsers fetches user defaults upon guild initialization. -/
def InitializeUsers (env : Env) : World → List discordgo.Member → World × List User
  | w, [] => (w, [])
  | w, usr :: rest =>
    let w1 := w.logIfError (env.joinedAt usr.JoinedAt).2
    let u : User :=
      { Username := usr.User.Username, Discriminator := usr.User.Discriminator,
        Nickname := usr.Nick, ID := usr.User.ID, Age := env.creationAge usr.User.ID,
        JoinedAt := (env.joinedAt usr.JoinedAt).1,
        PreviousUsernames := some [], PreviousNicknames := some [], Roles := some [],
        Warnings := some [], Kicks := some [], Bans := some [], Mutes := some [] }
    let r := InitializeUsers env w1 rest
    (r.1, u :: r.2)

/-- Result of `json.Marshal` as the callers use it: the bytes (nil on
error) and the error. -/
def marshalBytes (g : Guild) : Bytes × Option Err :=
  match jsonMarshal g with
  | .ok b => (b, none)
  | .error e => (.raw [], some e)

/-- RegisterNewGuild creates a key with a guild ID. -/
def RegisterNewGuild (env : Env) (w : World) (guild : discordgo.Guild) : World × Reply :=
  let r := InitializeUsers env w guild.Members
  let g : Guild :=
    { Guild.zero with GuildName := guild.Name, GuildPrefix := "+", GuildID := guild.ID,
                      Users := some r.2 }
  let s := marshalBytes g
  let w1 := r.1.logIfError s.2
  match Do w1 (.SETNX guild.ID s.1) with
  | (w2, n, err) => (w2.logIfError err, n)

/-- The three histories the `Log` functions append to. -/
inductive History where
  | Warnings
  | Kicks
  | Bans
deriving DecidableEq, Repr

/-- Go `g.Users[k].H = append(g.Users[k].H, e)` for the history `H`. -/
def User.addEntry (h : History) (u : User) (e : Entry) : User :=
  match h with
  | .Warnings => { u with Warnings := Slice.append u.Warnings e }
  | .Kicks => { u with Kicks := Slice.append u.Kicks e }
  | .Bans => { u with Bans := Slice.append u.Bans e }

/-- Loop `for k := range g.Users` of the `Log` functions: every record whose
ID is `userID` gets an entry with the channel text, the reason and a fresh
`time.Now()`. `none` is the nil dereference of `ctx.Channel`. -/
def appendLoop (h : History) (ctx : Context) (userID reason : String) :
    World → List User → World × Option (List User)
  | w, [] => (w, some [])
  | w, u :: us =>
    if u.ID = userID then
      match ctx.Channel with
      | none => (w, none)
      | some ch =>
        let t := timeNow w
        let u1 := u.addEntry h { Channel := ch.Name ++ " / " ++ ch.ID, Reason := reason, Time := t.2 }
        match appendLoop h ctx userID reason t.1 us with
        | (w1, some us1) => (w1, some (u1 :: us1))
        | (w1, none) => (w1, none)
    else
      match appendLoop h ctx userID reason w us with
      | (w1, some us1) => (w1, some (u :: us1))
      | (w1, none) => (w1, none)

/-- The loop over `g.Users`; over the nil slice it does nothing. -/
def rangeUsers (h : History) (ctx : Context) (userID reason : String) (w : World)
    (users : Slice User) : World × Option (Slice User) :=
  match users with
  | none => (w, some none)
  | some us =>
    match appendLoop h ctx userID reason w us with
    | (w1, some us1) => (w1, some (some us1))
    | (w1, none) => (w1, none)

/-- Last lines of the `Log` functions: `json.Marshal(g)`, the error logged,
then `SET` with the bytes (nil when encoding failed), the error logged. -/
def putGuild (w : World) (key : String) (g : Guild) : World :=
  let s := marshalBytes g
  let w1 := w.logIfError s.2
  match Do w1 (.SET key s.1) with
  | (w2, _, err) => w2.logIfError err

/-- Body shared by `LogWarning`, `LogKick` and `LogBan`, which differ in the
history appended to: GET, panic on error, decode into a zero `Guild` (an
error is logged and the function goes on), the loop, encode, SET. -/
def logEntry (h : History) (w : World) (ctx : Context) (userID reason : String) :
    World × Outcome :=
  match ctx.Guild with
  | none => (w, .panicked none)
  | some guild =>
    match Do w (.GET guild.ID) with
    | (w1, n, err) =>
      match redisBytes (n, err) with
      | (_, some e) => (w1, .panicked (some e))
      | (data, none) =>
        let d := jsonUnmarshal data Guild.zero
        let w2 := w1.logIfError d.2
        match rangeUsers h ctx userID reason w2 d.1.Users with
        | (w3, none) => (w3, .panicked none)
        | (w3, some users) => (putGuild w3 guild.ID { d.1 with Users := users }, .returned)

/-- LogWarning logs a warning to a user's record in the database. -/
def LogWarning (w : World) (ctx : Context) (userID reason : String) : World × Outcome :=
  logEntry .Warnings w ctx userID reason

/-- LogKick logs a kick to a user's record in the database. -/
def LogKick (w : World) (ctx : Context) (userID reason : String) : World × Outcome :=
  logEntry .Kicks w ctx userID reason

/-- LogBan logs a ban to a user's record in the database. -/
def LogBan (w : World) (ctx : Context) (userID reason : String) : World × Outcome :=
  logEntry .Bans w ctx userID reason

/-! ## `events.go` -/

/-- State cache of the session: `s.State.Channel` and `s.State.Guild`, `none`
being `ErrStateNotFound`. -/
structure Session where
  channels : String → Option discordgo.Channel
  guilds : String → Option discordgo.Guild

/-- Fields read of `discordgo.MessageCreate`. -/
structure Message where
  ChannelID : String
  Content : String
deriving DecidableEq, Repr

/-- How `MessageCreate` ended: it returned without a call, it reached
`Call(funcs, name, ctx)`, or it panicked. -/
inductive Dispatch where
  | dropped
  | called (name : String) (ctx : Context)
  | panicked
deriving DecidableEq, Repr

/-- Lines 25-51 of `MessageCreate`: the prefix the message is tested
against. In a guild text channel it is the `GuildPrefix` of whatever
decoding the GET reply into a zero `Guild` leaves; elsewhere `conf.Prefix`.
`none` is the nil dereference `guild.ID` after a failed guild lookup. -/
def resolvePrefix (env : Env) (w : World) (s : Session) (channel : discordgo.Channel) :
    World × Option String :=
  if channel.Kind = discordgo.ChannelType.GuildText then
    match s.guilds channel.GuildID with
    | none => (w.logError .stateNotFound, none)
    | some guild =>
      match Do w (.GET guild.ID) with
      | (w1, n, err) =>
        let r := redisBytes (n, err)
        let w2 := w1.logIfError r.2
        let d := jsonUnmarshal r.1 Guild.zero
        (w2, some d.1.GuildPrefix)
  else (w, some env.confPrefix)

/-- Go `xs[1:]`, which panics (`none`) on an empty slice. -/
def sliceFrom1 {α : Type} : List α → Option (List α)
  | [] => none
  | _ :: xs => some xs

/-- Lines 23-86 of `MessageCreate`: up to the assignment of `ctx.Args`.
`error` is an early end (a return without a call, or a panic), `ok` the
channel and the context built. -/
def buildContext (env : Env) (w : World) (s : Session) (m : Message) :
    World × Except Dispatch (discordgo.Channel × Context) :=
  match s.channels m.ChannelID with
  | none => (w, .error .dropped)
  | some channel =>
    match resolvePrefix env w s channel with
    | (w1, none) => (w1, .error .panicked)
    | (w1, some pfx) =>
      if strings.HasPrefix m.Content pfx = false then (w1, .error .dropped)
      else
        match strings.Split (strings.TrimPrefix m.Content pfx) " " with
        | [] => (w1, .error .panicked)
        | name :: _ =>
          let guildStep : Option (World × Option discordgo.Guild) :=
            if channel.Kind = discordgo.ChannelType.GuildText then
              match s.guilds channel.GuildID with
              | none => none
              | some guild => some ((RegisterNewGuild env w1 guild).1, some guild)
            else some (w1, none)
          match guildStep with
          | none => (w1, .error .dropped)
          | some (w2, guild) =>
            let command := env.FetchCommand name
            match sliceFrom1 (strings.Split (strings.TrimPrefix m.Content pfx) command.ArgsDelim) with
            | none => (w2, .error .panicked)
            | some args =>
              (w2, .ok (channel,
                { Content := m.Content, Channel := some channel, Guild := guild, Name := name,
                  Command := command, Args := args }))

/-- MessageCreate triggers on a message that is visible to the bot and
handles message and command responses. The console output of `LogCommands`
is not part of the state. -/
def MessageCreate (env : Env) (w : World) (s : Session) (m : Message) : World × Dispatch :=
  match buildContext env w s m with
  | (w2, .error d) => (w2, d)
  | (w2, .ok (channel, ctx)) =>
    if channel.Kind = discordgo.ChannelType.GuildText ∧ env.CommandIsValid ctx = false then
      (w2, .dropped)
    else (w2, .called (env.FetchCommandName ctx.Name) ctx)

/-- GuildCreate initializes a new guild when the bot is first added. -/
def GuildCreate (env : Env) (w : World) (guild : discordgo.Guild) : World × Outcome :=
  match GuildExists w guild with
  | (w1, true) => (w1, .returned)
  | (w1, false) =>
    let w2 := (RegisterNewGuild env w1 guild).1
    ({ w2 with log := w2.log ++ [.guildAdded guild.Name guild.ID] }, .returned)

/-- GuildDelete removes a guild when the bot is removed from a guild. -/
def GuildDelete (w : World) (guild : discordgo.Guild) : World × Outcome :=
  match GuildExists w guild with
  | (w1, false) => (w1, .returned)
  | (w1, true) =>
    match DeleteGuild w1 guild with
    | (w2, _, some e) => (w2.logError e, .panicked (some e))
    | (w2, _, none) =>
      ({ w2 with log := w2.log ++ [.guildRemoved guild.Name guild.ID] }, .returned)

/-! ## Observations used to state the properties -/

/-- The `Log` function of a history. -/
def History.log : History → World → Context → String → String → World × Outcome
  | .Warnings => LogWarning
  | .Kicks => LogKick
  | .Bans => LogBan

/-- The history of a kind in a user record. -/
def History.of : History → User → Slice Entry
  | .Warnings => fun u => u.Warnings
  | .Kicks => fun u => u.Kicks
  | .Bans => fun u => u.Bans

/-- Re-reading and decoding the document stored under a key: the value GET
returns, decoded into a zero `Guild` without error. -/
def storedGuild (w : World) (key : String) : Option Guild :=
  match w.kv key with
  | none => none
  | some b =>
    match jsonUnmarshal b Guild.zero with
    | (g, none) => some g
    | (_, some _) => none

/-- Number of records before position `i` whose ID is `userID`: how many
clock readings the loop took before it reached position `i`. -/
def matchesBefore (userID : String) (us : List User) (i : Nat) : Nat :=
  (us.take i).countP (fun u => u.ID = userID)

/-- Total number of entries of a history over a list of records. -/
def historyTotal (h : History) (us : List User) : Nat :=
  (us.map (fun u => (Slice.elems (h.of u)).length)).sum

/-- The user list the loop of the `Log` functions leaves when `ctx.Channel`
is set: record by record, with the clock readings from `n` on. -/
def stampUsers (h : History) (channel reason userID : String) (clock : Nat → GoTime) :
    Nat → List User → List User
  | _, [] => []
  | n, u :: us =>
    if u.ID = userID then
      u.addEntry h { Channel := channel, Reason := reason, Time := clock n }
        :: stampUsers h channel reason userID clock (n + 1) us
    else u :: stampUsers h channel reason userID clock n us

/-- The document the `Log` functions encode when `ctx.Channel` is set: the
decoded document with its user list stamped. -/
def stampGuild (h : History) (channel reason userID : String) (clock : Nat → GoTime) (n : Nat)
    (g : Guild) : Guild :=
  { g with Users := g.Users.map (stampUsers h channel reason userID clock n) }

/-- The user list `InitializeUsers` builds from the members of a guild. -/
def freshUsers (env : Env) (members : List discordgo.Member) : List User :=
  members.map (fun usr =>
    { Username := usr.User.Username, Discriminator := usr.User.Discriminator,
      Nickname := usr.Nick, ID := usr.User.ID, Age := env.creationAge usr.User.ID,
      JoinedAt := (env.joinedAt usr.JoinedAt).1,
      PreviousUsernames := some [], PreviousNicknames := some [], Roles := some [],
      Warnings := some [], Kicks := some [], Bans := some [], Mutes := some [] })

/-- The document `RegisterNewGuild` builds from a guild: name and ID of the
guild, prefix `+`, one record per member with empty histories. -/
def freshDoc (env : Env) (guild : discordgo.Guild) : Guild :=
  { Guild.zero with GuildName := guild.Name, GuildPrefix := "+", GuildID := guild.ID,
                    Users := some (freshUsers env guild.Members) }

/-! ## Sample values -/

/-- A clock reading as `time.Now` gives it, monotonic reading included. -/
def sampleNow : GoTime :=
  { year := 2019, month := 3, day := 7, hour := 15, minute := 4, second := 5,
    nsec := 120000000, offset := -18000, mono := some 77 }

/-- A time as a decoded document holds it. -/
def sampleTime : GoTime :=
  { year := 2018, month := 12, day := 31, hour := 23, minute := 59, second := 59,
    nsec := 1, offset := 3600, mono := none }

/-- A guild of two members. -/
def sampleGuild : discordgo.Guild :=
  { ID := "g1", Name := "Guild One",
    Members := [{ User := { ID := "u1", Username := "alice", Discriminator := "0001" },
                  Nick := "al", JoinedAt := "2018-01-01T00:00:00Z" },
                { User := { ID := "u2", Username := "bob", Discriminator := "0002" },
                  Nick := "", JoinedAt := "2018-06-01T00:00:00Z" }] }

/-- A text channel of the sample guild. -/
def sampleChannel : discordgo.Channel :=
  { ID := "c1", Name := "general", GuildID := "g1", Kind := discordgo.ChannelType.GuildText }

/-- A user record with history of every kind. -/
def sampleUser : User :=
  { Username := "alice", Discriminator := "0001", Nickname := "al", ID := "u1",
    Age := "01/01/17 12:00:00 AM UTC", JoinedAt := "01/01/18 12:00:00 AM UTC",
    PreviousUsernames := some [], PreviousNicknames := some ["ally"], Roles := none,
    Warnings := some [{ Channel := "general / c1", Reason := "spam", Time := sampleTime }],
    Kicks := some [{ Channel := "general / c1", Reason := "flood", Time := sampleTime }],
    Bans := some [{ Channel := "mods / c2", Reason := "raid", Time := sampleTime }],
    Mutes := some [{ Channel := "mods / c2", Reason := "noise", Time := sampleTime,
                     Length := 600000000000 }] }

/-- A stored document with a changed prefix and moderation history. -/
def sampleDoc : Guild :=
  { Guild.zero with GuildName := "Guild One", GuildPrefix := "?", GuildID := "g1",
                    Users := some [sampleUser, { User.zero with ID := "u2", Username := "bob" }],
                    Events := some ["join"] }

/-- The sample document as stored. -/
def sampleBytes : Bytes := .json (encodeGuild sampleDoc)

/-- Environment of the samples: every command splits on a space and passes
the validity check. -/
def sampleEnv : Env :=
  { confPrefix := "!", FetchCommand := fun n => { Name := n, ArgsDelim := " " },
    FetchCommandName := fun n => n, CommandIsValid := fun _ => true,
    creationAge := fun _ => "01/01/17 12:00:00 AM UTC", joinedAt := fun s => (s, none) }

/-- A world whose store is empty. -/
def emptyWorld : World :=
  { kv := fun _ => none, faults := [], clock := fun _ => sampleNow, ticks := 0, log := [] }

/-- A world whose store holds the sample document under `g1`. -/
def sampleWorld : World :=
  { emptyWorld with kv := fun k => if k = "g1" then some sampleBytes else none }

/-- A context in the sample channel and guild. -/
def sampleCtx : Context :=
  { Content := "+warn @alice spam", Channel := some sampleChannel, Guild := some sampleGuild,
    Name := "warn", Command := { Name := "warn", ArgsDelim := " " }, Args := ["@alice", "spam"] }

/-- A session that knows the sample channel and guild. -/
def sampleSession : Session :=
  { channels := fun i => if i = "c1" then some sampleChannel else none,
    guilds := fun i => if i = "g1" then some sampleGuild else none }

/-- The world after the sample guild was registered in an empty store. -/
def registeredWorld : World := (RegisterNewGuild sampleEnv emptyWorld sampleGuild).1

/-- Environment whose command table gives every command the empty
argument delimiter. -/
def emptyDelimEnv : Env :=
  { sampleEnv with FetchCommand := fun n => { Name := n, ArgsDelim := "" } }

/-! ## The RFC 3339 text of a time reads back -/

theorem digitVal_digitChar (d : Nat) : digitVal (digitChar d) = some (d % 10) := by
  unfold digitChar
  have h : d % 10 < 10 := Nat.mod_lt _ (by decide)
  generalize d % 10 = k at h
  interval_cases k <;> rfl

theorem digitsVal_step_digitsFixed (w : Nat) : ∀ (n a : Nat),
    (digitsFixed w n).foldl (fun acc c => match acc, digitVal c with
      | some a, some d => some (a * 10 + d)
      | _, _ => none) (some a) = some (a * 10 ^ w + n % 10 ^ w) := by
  induction w with
  | zero => intro n a; simp [digitsFixed, Nat.mod_one]
  | succ w ih =>
    intro n a
    simp only [digitsFixed, List.foldl_append, ih, List.foldl_cons, List.foldl_nil,
      digitVal_digitChar]
    congr 1
    have := Nat.mod_mul (x := n) (a := 10) (b := 10 ^ w)
    rw [pow_succ, Nat.mul_comm (10 ^ w) 10, this]
    ring

theorem digitsVal_digitsFixed (w n : Nat) (h : n < 10 ^ w) :
    digitsVal (digitsFixed w n) = some n := by
  unfold digitsVal
  rw [digitsVal_step_digitsFixed, Nat.mod_eq_of_lt h]; simp

theorem parseUint_digitsFixed (w n lo hi : Nat) (h : n < 10 ^ w) (hlo : lo ≤ n) (hhi : n ≤ hi) :
    parseUint (digitsFixed w n) lo hi = some n := by
  simp [parseUint, digitsVal_digitsFixed w n h, hlo, hhi]

theorem digitVal_isSome_digitChar (d : Nat) : (digitVal (digitChar d)).isSome = true := by
  simp [digitVal_digitChar]

theorem mem_digitsFixed_isDigit (w : Nat) : ∀ (n : Nat) (c : Char), c ∈ digitsFixed w n →
    (digitVal c).isSome = true := by
  induction w with
  | zero => intro n c h; simp [digitsFixed] at h
  | succ w ih =>
    intro n c h
    simp only [digitsFixed, List.mem_append, List.mem_singleton] at h
    rcases h with h | h
    · exact ih _ _ h
    · subst h; exact digitVal_isSome_digitChar n

theorem length_digitsFixed (w : Nat) : ∀ n, (digitsFixed w n).length = w := by
  induction w with
  | zero => intro n; rfl
  | succ w ih => intro n; simp [digitsFixed, ih]

theorem dropWhile_zero_split (l : List Char) :
    ∃ k, l = List.replicate k '0' ++ l.dropWhile (fun c => c == '0') := by
  induction l with
  | nil => exact ⟨0, rfl⟩
  | cons a l ih =>
    by_cases h : a = '0'
    · obtain ⟨k, hk⟩ := ih
      refine ⟨k + 1, ?_⟩
      subst h
      simp only [List.dropWhile_cons, beq_self_eq_true, if_true, List.replicate_succ,
        List.cons_append]
      exact congrArg _ hk
    · refine ⟨0, ?_⟩
      simp [List.dropWhile_cons, h]

theorem trimZeros_split (l : List Char) :
    ∃ k, l = trimZeros l ++ List.replicate k '0' := by
  obtain ⟨k, hk⟩ := dropWhile_zero_split l.reverse
  refine ⟨k, ?_⟩
  have := congrArg List.reverse hk
  simpa [trimZeros] using this

theorem trimZeros_pad (l : List Char) (h : l.length = 9) :
    (trimZeros l ++ List.replicate 9 '0').take 9 = l := by
  obtain ⟨k, hk⟩ := trimZeros_split l
  have hlen : (trimZeros l).length + k = 9 := by
    have := congrArg List.length hk
    simp at this; omega
  have h9 : List.replicate 9 '0' = List.replicate k '0' ++ List.replicate (9 - k) '0' := by
    rw [List.append_replicate_replicate]; congr 1; omega
  rw [h9, ← List.append_assoc, ← hk, List.take_append_of_le_length (by omega)]
  exact List.take_of_length_le (by omega)

theorem mem_trimZeros (l : List Char) (c : Char) (h : c ∈ trimZeros l) : c ∈ l := by
  obtain ⟨k, hk⟩ := trimZeros_split l
  rw [hk]; exact List.mem_append_left _ h

theorem digitsVal_replicate_zero (k : Nat) : digitsVal (List.replicate k '0') = some 0 := by
  unfold digitsVal
  induction k with
  | zero => rfl
  | succ k ih =>
    rw [List.replicate_succ, List.foldl_cons]
    have : digitVal '0' = some 0 := rfl
    simpa [this] using ih

theorem trimZeros_ne_nil (ns : Nat) (h0 : ns ≠ 0) (h : ns < 1000000000) :
    trimZeros (digitsFixed 9 ns) ≠ [] := by
  intro hnil
  obtain ⟨k, hk⟩ := trimZeros_split (digitsFixed 9 ns)
  rw [hnil, List.nil_append] at hk
  have h1 := digitsVal_digitsFixed 9 ns (by norm_num; exact h)
  rw [hk, digitsVal_replicate_zero] at h1
  exact h0 (Option.some.inj h1).symm

theorem takeWhile_append_stop {α : Type} (p : α → Bool) (l : List α) (z : α) (zs : List α)
    (hl : ∀ c ∈ l, p c = true) (hz : p z = false) :
    (l ++ z :: zs).takeWhile p = l ∧ (l ++ z :: zs).dropWhile p = z :: zs := by
  induction l with
  | nil => simp [List.takeWhile_cons, List.dropWhile_cons, hz]
  | cons a l ih =>
    have ha : p a = true := hl a (List.mem_cons_self _ _)
    have := ih (fun c hc => hl c (List.mem_cons_of_mem _ hc))
    simp [List.takeWhile_cons, List.dropWhile_cons, ha, this]

theorem parseZone_formatZone (off : Int) (h60 : off % 60 = 0) (hlo : -86400 < off)
    (hhi : off < 86400) : parseZone (formatZone off) = some off := by
  unfold formatZone
  by_cases h0 : off = 0
  · simp [h0, parseZone]
  · obtain ⟨k, hk⟩ : ∃ k : Int, off = 60 * k := ⟨off / 60, by omega⟩
    have hz : Int.tdiv off 60 = k := by
      rw [hk]; exact Int.mul_tdiv_cancel_left _ (by decide)
    simp only [h0, if_false, hz]
    have hk0 : k ≠ 0 := by intro h; apply h0; rw [hk, h]; rfl
    obtain ⟨n, hn⟩ : ∃ n : Nat, n = k.natAbs := ⟨_, rfl⟩
    have hkn : n < 1440 := by omega
    rw [← hn]
    have e1 := parseUint_digitsFixed 2 (n / 60) 0 23 (by norm_num; omega) (by omega) (by omega)
    have e2 := parseUint_digitsFixed 2 (n % 60) 0 59 (by norm_num; omega) (by omega) (by omega)
    simp only [digitsFixed, List.nil_append, List.cons_append] at e1 e2 ⊢
    have hd : (n / 60 * 60 + n % 60) * 60 = n * 60 := by omega
    by_cases hneg : k < 0
    · simp only [hneg, if_true, parseZone, e1, e2, hd]
      simp
      omega
    · simp only [hneg, if_false, parseZone, e1, e2, hd]
      simp
      omega

theorem formatZone_head (off : Int) :
    ∃ z zs, formatZone off = z :: zs ∧ (digitVal z).isSome = false ∧ z ≠ '.' := by
  unfold formatZone
  by_cases h0 : off = 0
  · exact ⟨'Z', [], by simp [h0], by decide, by decide⟩
  · by_cases hneg : Int.tdiv off 60 < 0
    · exact ⟨'-', _, by simp only [h0, if_false, hneg, if_true]; rfl, by decide, by decide⟩
    · exact ⟨'+', _, by simp only [h0, if_false, hneg]; rfl, by decide, by decide⟩

theorem parseFracZone_format (ns : Nat) (off : Int) (hns : ns < 1000000000)
    (h60 : off % 60 = 0) (hlo : -86400 < off) (hhi : off < 86400) :
    parseFracZone (formatFrac ns ++ formatZone off) = some (ns, off) := by
  have hz := parseZone_formatZone off h60 hlo hhi
  obtain ⟨z, zs, hzs, hzd, hzp⟩ := formatZone_head off
  unfold formatFrac
  by_cases h0 : ns = 0
  · simp only [h0, if_true, List.nil_append]
    rw [hzs] at hz ⊢
    unfold parseFracZone
    split
    · rename_i d rest heq
      exact absurd (List.cons.inj heq).1 hzp
    · simp [hz]
  · simp only [h0, if_false, List.cons_append]
    have hne := trimZeros_ne_nil ns h0 hns
    have hpad := trimZeros_pad (digitsFixed 9 ns) (length_digitsFixed 9 ns)
    have hdig : ∀ c ∈ trimZeros (digitsFixed 9 ns), (digitVal c).isSome = true :=
      fun c hc => mem_digitsFixed_isDigit 9 ns c (mem_trimZeros _ _ hc)
    obtain ⟨d, ds, hT⟩ := List.exists_cons_of_ne_nil hne
    rw [hT] at hpad hdig
    rw [hT, hzs, List.cons_append]
    have hd : (digitVal d).isSome = true := hdig d (List.mem_cons_self _ _)
    have hsplit := takeWhile_append_stop (fun c => (digitVal c).isSome) ds z zs
      (fun c hc => hdig c (List.mem_cons_of_mem _ hc)) hzd
    simp only [parseFracZone, hd, if_true, hsplit.1, hsplit.2]
    rw [← hzs, hz]
    simp only [parseNanos, hpad, digitsVal_digitsFixed 9 ns (by norm_num; exact hns)]

theorem parseRFC3339_formatRFC3339 (t : GoTime) (hv : t.Valid) (hy : t.yearInRange = true) :
    parseRFC3339 (formatRFC3339 t) = some t.wall := by
  obtain ⟨hm1, hm2, hd1, hd2, hh, hmi, hs, hns, h60, hlo, hhi⟩ := hv
  simp only [GoTime.yearInRange, Bool.and_eq_true, decide_eq_true_eq] at hy
  obtain ⟨y, hyy⟩ : ∃ y : Nat, y = t.year.toNat := ⟨_, rfl⟩
  have hyt : (y : Int) = t.year := by omega
  have hy9 : y ≤ 9999 := by omega
  have ey := parseUint_digitsFixed 4 y 0 9999 (by norm_num; omega) (by omega) hy9
  have emo := parseUint_digitsFixed 2 t.month 1 12 (by norm_num; omega) hm1 hm2
  have hdays : daysIn t.month y ≤ 31 := by
    unfold daysIn; split
    · split <;> omega
    · split <;> omega
  rw [← hyy] at hd2
  have ed := parseUint_digitsFixed 2 t.day 1 (daysIn t.month y) (by norm_num; omega) hd1 hd2
  have eh := parseUint_digitsFixed 2 t.hour 0 23 (by norm_num; omega) (by omega) hh
  have emi := parseUint_digitsFixed 2 t.minute 0 59 (by norm_num; omega) (by omega) hmi
  have es := parseUint_digitsFixed 2 t.second 0 59 (by norm_num; omega) (by omega) hs
  have efz := parseFracZone_format t.nsec t.offset hns h60 hlo hhi
  unfold formatRFC3339
  rw [← hyy]
  simp only [digitsFixed, List.nil_append, List.cons_append, List.append_assoc] at ey emo ed eh emi es ⊢
  simp only [parseRFC3339, ey, emo, ed, eh, emi, es, efz, and_self, if_true, GoTime.wall, hyt]

theorem findField_entry :
    findField entryFields "Channel" = some 0 ∧ findField entryFields "Reason" = some 1 ∧
    findField entryFields "Time" = some 2 := by decide

theorem findField_mutes :
    findField mutesFields "Channel" = some 0 ∧ findField mutesFields "Reason" = some 1 ∧
    findField mutesFields "Time" = some 2 ∧ findField mutesFields "Length" = some 3 := by decide

theorem findField_user :
    findField userFields "Username" = some 0 ∧ findField userFields "Discriminator" = some 1 ∧
    findField userFields "Nickname" = some 2 ∧ findField userFields "ID" = some 3 ∧
    findField userFields "Age" = some 4 ∧ findField userFields "JoinedAt" = some 5 ∧
    findField userFields "PreviousUsernames" = some 6 ∧
    findField userFields "PreviousNicknames" = some 7 ∧ findField userFields "Roles" = some 8 ∧
    findField userFields "Warnings" = some 9 ∧ findField userFields "Kicks" = some 10 ∧
    findField userFields "Bans" = some 11 ∧ findField userFields "Mutes" = some 12 := by decide

theorem findField_guild :
    findField guildFields "GuildName" = some 0 ∧ findField guildFields "GuildPrefix" = some 1 ∧
    findField guildFields "GuildID" = some 2 ∧ findField guildFields "Users" = some 3 ∧
    findField guildFields "BlacklistedChannels" = some 4 ∧
    findField guildFields "BlacklistedMembers" = some 5 ∧
    findField guildFields "WelcomeMessage" = some 6 ∧
    findField guildFields "WelcomeChannel" = some 7 ∧
    findField guildFields "GoodbyeMessage" = some 8 ∧
    findField guildFields "GoodbyeChannel" = some 9 ∧ findField guildFields "Events" = some 10 ∧
    findField guildFields "DisabledCommands" = some 11 ∧
    findField guildFields "BirthdayRole" = some 12 ∧ findField guildFields "MutedRole" = some 13 ∧
    findField guildFields "AutoRole" = some 14 := by decide

theorem decodeArrayInto_map {α : Type} (dec : α → JSON → α × Flow) (zero : α) (enc : α → JSON)
    (norm : α → α) (xs : List α) (h : ∀ x ∈ xs, ∀ c, dec c (enc x) = (norm x, Flow.ok)) :
    ∀ cur, decodeArrayInto dec zero cur (xs.map enc) = (xs.map norm, Flow.ok) := by
  induction xs with
  | nil => intro cur; rfl
  | cons x xs ih =>
    intro cur
    have hx := h x (List.mem_cons_self _ _) (cur.headD zero)
    have ih1 := ih (fun y hy => h y (List.mem_cons_of_mem _ hy)) cur.tail
    simp only [List.map_cons, decodeArrayInto, hx, ih1, Flow.seq]

theorem decodeSlice_encodeSlice {α : Type} (dec : α → JSON → α × Flow) (zero : α)
    (enc : α → JSON) (norm : α → α) (s : Slice α)
    (h : ∀ x ∈ Slice.elems s, ∀ c, dec c (enc x) = (norm x, Flow.ok)) (cur : Slice α) :
    decodeSlice dec zero cur (encodeSlice enc s) = (s.map (List.map norm), Flow.ok) := by
  cases s with
  | none => rfl
  | some xs =>
    simp only [encodeSlice, decodeSlice, Option.map_some']
    rw [decodeArrayInto_map dec zero enc norm xs h]

theorem decodeStrings_encode (s cur : Slice String) :
    decodeStrings cur (encodeSlice JSON.str s) = (s, Flow.ok) := by
  unfold decodeStrings
  rw [decodeSlice_encodeSlice decodeString "" JSON.str id s (fun x _ c => rfl) cur]
  cases s <;> simp

theorem decodeTime_encodeTime (t cur : GoTime) (hv : t.Valid) (hy : t.yearInRange = true) :
    decodeTime cur (encodeTime t) = (t.wall, Flow.ok) := by
  simp only [decodeTime, encodeTime, parseRFC3339_formatRFC3339 t hv hy]

theorem decodeEntry_encodeEntry (e : Entry) (h : e.Encodable) (cur : Entry) :
    decodeEntry cur (encodeEntry e) = (e.wall, Flow.ok) := by
  simp only [decodeEntry, decodeStruct, encodeEntry, decodeObject, findField_entry,
    decodeEntryField, decodeString, decodeTime_encodeTime e.Time _ h.1 h.2, Flow.seq, Entry.wall]

theorem decodeMutes_encodeMutes (e : Mutes) (h : e.Encodable) (cur : Mutes) :
    decodeMutes cur (encodeMutes e) = (e.wall, Flow.ok) := by
  obtain ⟨h1, h2, h3, h4⟩ := h
  simp only [decodeMutes, decodeStruct, encodeMutes, decodeObject, findField_mutes,
    decodeMutesField, decodeString, decodeTime_encodeTime e.Time _ h1 h2, Flow.seq, Mutes.wall,
    decodeInt64, h3, h4, and_self, if_true]

theorem decodeUser_encodeUser (u : User) (h : u.Encodable) (cur : User) :
    decodeUser cur (encodeUser u) = (u.wall, Flow.ok) := by
  obtain ⟨h1, h2, h3, h4⟩ := h
  have e1 := fun c => decodeSlice_encodeSlice decodeEntry Entry.zero encodeEntry Entry.wall u.Warnings
    (fun x hx c => decodeEntry_encodeEntry x (h1 x hx) c) c
  have e2 := fun c => decodeSlice_encodeSlice decodeEntry Entry.zero encodeEntry Entry.wall u.Kicks
    (fun x hx c => decodeEntry_encodeEntry x (h2 x hx) c) c
  have e3 := fun c => decodeSlice_encodeSlice decodeEntry Entry.zero encodeEntry Entry.wall u.Bans
    (fun x hx c => decodeEntry_encodeEntry x (h3 x hx) c) c
  have e4 := fun c => decodeSlice_encodeSlice decodeMutes Mutes.zero encodeMutes Mutes.wall u.Mutes
    (fun x hx c => decodeMutes_encodeMutes x (h4 x hx) c) c
  simp only [decodeUser, decodeStruct, encodeUser, decodeObject, findField_user,
    decodeUserField, decodeString, decodeStrings_encode, e1, e2, e3, e4, Flow.seq, User.wall]

theorem decodeGuild_encodeGuild (g : Guild) (h : g.Encodable) (cur : Guild) :
    decodeStruct guildFields decodeGuildField cur (encodeGuild g) = (g.wall, Flow.ok) := by
  have e1 := fun c => decodeSlice_encodeSlice decodeUser User.zero encodeUser User.wall g.Users
    (fun x hx c => decodeUser_encodeUser x (h x hx) c) c
  simp only [decodeStruct, encodeGuild, decodeObject, findField_guild,
    decodeGuildField, decodeString, decodeStrings_encode, e1, Flow.seq, Guild.wall]

/-! ## Decoded documents are well-formed -/

theorem parseUint_bounds (s : List Char) (lo hi x : Nat) (h : parseUint s lo hi = some x) :
    lo ≤ x ∧ x ≤ hi := by
  unfold parseUint at h
  split at h
  · split at h
    · rename_i hb; cases h; exact hb
    · cases h
  · cases h

theorem digitVal_le (c : Char) (d : Nat) (h : digitVal c = some d) : d ≤ 9 := by
  unfold digitVal at h
  split at h
  · cases h; omega
  · cases h

theorem digitsVal_lt (l : List Char) : ∀ n, digitsVal l = some n → n < 10 ^ l.length := by
  induction l using List.reverseRecOn with
  | nil => intro n h; simp [digitsVal] at h; subst h; simp
  | append_singleton l c ih =>
    intro n h
    unfold digitsVal at h ih
    rw [List.foldl_append] at h
    simp only [List.foldl_cons, List.foldl_nil] at h
    split at h
    · rename_i a d ha hd
      cases h
      have := ih a ha
      have := digitVal_le c d hd
      simp only [List.length_append, List.length_singleton, pow_succ]
      omega
    · cases h

theorem parseNanos_lt (ds : List Char) (ns : Nat) (h : parseNanos ds = some ns) :
    ns < 1000000000 := by
  have := digitsVal_lt _ _ h
  have hl : ((ds ++ List.replicate 9 '0').take 9).length = 9 := by
    simp
  rw [hl] at this
  simpa using this

theorem parseZone_bounds (s : List Char) (off : Int) (h : parseZone s = some off) :
    off % 60 = 0 ∧ -86400 < off ∧ off < 86400 := by
  unfold parseZone at h
  split at h
  · cases h; decide
  · split at h
    · rename_i hr mm hhr hmm
      have b1 := parseUint_bounds _ _ _ _ hhr
      have b2 := parseUint_bounds _ _ _ _ hmm
      split at h
      · split at h
        · cases h; omega
        · split at h
          · cases h; omega
          · cases h
      · cases h
    · cases h
  · cases h

theorem parseFracZone_bounds (s : List Char) (ns : Nat) (off : Int)
    (h : parseFracZone s = some (ns, off)) :
    ns < 1000000000 ∧ off % 60 = 0 ∧ -86400 < off ∧ off < 86400 := by
  unfold parseFracZone at h
  split at h
  · split at h
    · simp only at h
      split at h
      · rename_i n o hn ho
        cases h
        exact ⟨parseNanos_lt _ _ hn, parseZone_bounds _ _ ho⟩
      · cases h
    · simp only [Option.map_eq_some'] at h
      obtain ⟨o, ho, he⟩ := h
      cases he
      exact ⟨by decide, parseZone_bounds _ _ ho⟩
  · simp only [Option.map_eq_some'] at h
    obtain ⟨o, ho, he⟩ := h
    cases he
    exact ⟨by decide, parseZone_bounds _ _ ho⟩

theorem parseRFC3339_valid (s : List Char) (t : GoTime) (h : parseRFC3339 s = some t) :
    t.Valid ∧ t.yearInRange = true ∧ t.mono = none := by
  unfold parseRFC3339 at h
  split at h
  · split at h
    · rename_i year month hy hmo
      split at h
      · rename_i day hour minute second hd hh hmi hs
        split at h
        · split at h
          · rename_i ns off hfz
            cases h
            have by_ := parseUint_bounds _ _ _ _ hy
            have bmo := parseUint_bounds _ _ _ _ hmo
            have bd := parseUint_bounds _ _ _ _ hd
            have bh := parseUint_bounds _ _ _ _ hh
            have bmi := parseUint_bounds _ _ _ _ hmi
            have bs := parseUint_bounds _ _ _ _ hs
            have bfz := parseFracZone_bounds _ _ _ hfz
            refine ⟨?_, ?_, rfl⟩
            · simp only [GoTime.Valid, Int.toNat_ofNat]
              omega
            · simp only [GoTime.yearInRange, Bool.and_eq_true, decide_eq_true_eq]
              omega
          · cases h
        · cases h
      · cases h
    · cases h
  · cases h

theorem decodeTime_clean (cur : GoTime) (v : JSON)
    (h : cur.Valid ∧ cur.yearInRange = true ∧ cur.mono = none) :
    (decodeTime cur v).1.Valid ∧ (decodeTime cur v).1.yearInRange = true ∧
      (decodeTime cur v).1.mono = none := by
  unfold decodeTime
  split
  · exact h
  · split
    · rename_i t ht; exact parseRFC3339_valid _ t ht
    · exact ⟨by decide, by decide, rfl⟩
  · exact h

theorem decodeObject_preserves {α : Type} (P : α → Prop) (fields : List String)
    (step : α → Nat → JSON → α × Flow) (hstep : ∀ a i v, P a → P (step a i v).1)
    (kvs : List (String × JSON)) : ∀ a, P a → P (decodeObject fields step a kvs).1 := by
  induction kvs with
  | nil => intro a ha; exact ha
  | cons kv rest ih =>
    intro a ha
    obtain ⟨k, v⟩ := kv
    unfold decodeObject
    split
    · exact ih a ha
    · rename_i i _
      have hs := hstep a i v ha
      split
      · rename_i a1 heq; rw [heq] at hs; exact hs
      · rename_i a1 f _ heq; rw [heq] at hs; exact ih a1 hs

theorem decodeStruct_preserves {α : Type} (P : α → Prop) (fields : List String)
    (step : α → Nat → JSON → α × Flow) (hstep : ∀ a i v, P a → P (step a i v).1)
    (cur : α) (v : JSON) (h : P cur) : P (decodeStruct fields step cur v).1 := by
  unfold decodeStruct
  split
  · exact h
  · exact decodeObject_preserves P fields step hstep _ cur h
  · exact h

theorem decodeArrayInto_preserves {α : Type} (P : α → Prop) (dec : α → JSON → α × Flow)
    (zero : α) (hdec : ∀ c v, P c → P (dec c v).1) (hz : P zero) (xs : List JSON) :
    ∀ cur : List α, (∀ c ∈ cur, P c) → ∀ x ∈ (decodeArrayInto dec zero cur xs).1, P x := by
  induction xs with
  | nil => intro cur _ x hx; simp [decodeArrayInto] at hx
  | cons j js ih =>
    intro cur hcur x hx
    have hhead : P (cur.headD zero) := by
      cases cur with
      | nil => exact hz
      | cons c cs => exact hcur c (List.mem_cons_self _ _)
    have htail : ∀ c ∈ cur.tail, P c := fun c hc => hcur c (List.mem_of_mem_tail hc)
    have hd := hdec (cur.headD zero) j hhead
    unfold decodeArrayInto at hx
    split at hx
    · rename_i a heq
      rw [heq] at hd
      rcases List.mem_cons.1 hx with h | h
      · rw [h]; exact hd
      · exact htail x h
    · rename_i a f _ heq
      rw [heq] at hd
      rcases List.mem_cons.1 hx with h | h
      · rw [h]; exact hd
      · exact ih cur.tail htail x h

theorem decodeSlice_preserves {α : Type} (P : α → Prop) (dec : α → JSON → α × Flow)
    (zero : α) (hdec : ∀ c v, P c → P (dec c v).1) (hz : P zero) (cur : Slice α) (v : JSON)
    (hcur : ∀ c ∈ Slice.elems cur, P c) : ∀ x ∈ Slice.elems (decodeSlice dec zero cur v).1, P x := by
  unfold decodeSlice
  split
  · intro x hx; simp [Slice.elems] at hx
  · intro x hx
    exact decodeArrayInto_preserves P dec zero hdec hz _ _ hcur x (by simpa [Slice.elems] using hx)
  · exact hcur

theorem decodeEntry_wellFormed (cur : Entry) (v : JSON) (h : cur.WellFormed) :
    (decodeEntry cur v).1.WellFormed := by
  refine decodeStruct_preserves Entry.WellFormed entryFields decodeEntryField ?_ cur v h
  intro a i v ha
  have ht := decodeTime_clean a.Time v ⟨ha.1.1, ha.1.2, ha.2⟩
  unfold decodeEntryField
  split
  · exact ha
  · exact ha
  · exact ⟨⟨ht.1, ht.2.1⟩, ht.2.2⟩

theorem decodeInt64_range (cur : Int) (v : JSON)
    (h : -9223372036854775808 ≤ cur ∧ cur ≤ 9223372036854775807) :
    -9223372036854775808 ≤ (decodeInt64 cur v).1 ∧ (decodeInt64 cur v).1 ≤ 9223372036854775807 := by
  unfold decodeInt64
  split
  · split
    · rename_i hn; exact hn
    · exact h
  · exact h
  · exact h

theorem decodeMutes_wellFormed (cur : Mutes) (v : JSON) (h : cur.WellFormed) :
    (decodeMutes cur v).1.WellFormed := by
  refine decodeStruct_preserves Mutes.WellFormed mutesFields decodeMutesField ?_ cur v h
  intro a i v ha
  have ht := decodeTime_clean a.Time v ⟨ha.1.1, ha.1.2.1, ha.2⟩
  have hl := decodeInt64_range a.Length v ha.1.2.2
  unfold decodeMutesField
  split
  · exact ha
  · exact ha
  · exact ⟨⟨ht.1, ht.2.1, ha.1.2.2⟩, ht.2.2⟩
  · exact ⟨⟨ha.1.1, ha.1.2.1, hl⟩, ha.2⟩

theorem wellFormed_zeroEntry : Entry.zero.WellFormed := by decide

theorem wellFormed_zeroMutes : Mutes.zero.WellFormed := by decide

theorem wellFormed_zeroUser : User.zero.WellFormed := by decide

theorem decodeUser_wellFormed (cur : User) (v : JSON) (h : cur.WellFormed) :
    (decodeUser cur v).1.WellFormed := by
  refine decodeStruct_preserves User.WellFormed userFields decodeUserField ?_ cur v h
  intro a i v ha
  have he := fun (c : Slice Entry) hc => decodeSlice_preserves Entry.WellFormed decodeEntry Entry.zero
    decodeEntry_wellFormed wellFormed_zeroEntry c v hc
  have hm := decodeSlice_preserves Mutes.WellFormed decodeMutes Mutes.zero
    decodeMutes_wellFormed wellFormed_zeroMutes a.Mutes v ha.2.2.2
  unfold decodeUserField
  split
  · exact ha
  · exact ha
  · exact ha
  · exact ha
  · exact ha
  · exact ha
  · exact ha
  · exact ha
  · exact ha
  · exact ⟨he _ ha.1, ha.2.1, ha.2.2.1, ha.2.2.2⟩
  · exact ⟨ha.1, he _ ha.2.1, ha.2.2.1, ha.2.2.2⟩
  · exact ⟨ha.1, ha.2.1, he _ ha.2.2.1, ha.2.2.2⟩
  · exact ⟨ha.1, ha.2.1, ha.2.2.1, hm⟩

theorem decodeGuildField_wellFormed (a : Guild) (i : Nat) (v : JSON) (ha : a.WellFormed) :
    (decodeGuildField a i v).1.WellFormed := by
  have hu := decodeSlice_preserves User.WellFormed decodeUser User.zero
    decodeUser_wellFormed wellFormed_zeroUser a.Users v ha
  unfold decodeGuildField
  split
  · exact ha
  · exact ha
  · exact ha
  · exact hu
  all_goals exact ha

theorem jsonUnmarshal_wellFormed (data : Bytes) (g : Guild) (h : g.WellFormed) :
    (jsonUnmarshal data g).1.WellFormed := by
  unfold jsonUnmarshal
  split
  · exact h
  · rename_i v
    have := decodeStruct_preserves Guild.WellFormed guildFields decodeGuildField
      decodeGuildField_wellFormed g v h
    split <;> rename_i heq <;> rw [heq] at this <;> exact this

theorem wellFormed_zeroGuild : Guild.zero.WellFormed := by decide

/-! ## Encoding and decoding a document -/

theorem wall_eq_time (t : GoTime) (h : t.mono = none) : t.wall = t := by
  cases t; simp only [GoTime.wall] at *; simp [h]

theorem wall_eq_entry (e : Entry) (h : e.WellFormed) : e.wall = e := by
  cases e; simp only [Entry.wall, wall_eq_time _ h.2]

theorem wall_eq_mutes (e : Mutes) (h : e.WellFormed) : e.wall = e := by
  cases e; simp only [Mutes.wall, wall_eq_time _ h.2]

theorem Slice.map_eq_self {α : Type} (f : α → α) (s : Slice α)
    (h : ∀ x ∈ Slice.elems s, f x = x) : s.map (List.map f) = s := by
  cases s with
  | none => rfl
  | some xs =>
    simp only [Option.map_some', Option.some.injEq]
    have h1 : ∀ x ∈ xs, f x = x := fun x hx => h x (by simpa [Slice.elems] using hx)
    clear h
    induction xs with
    | nil => rfl
    | cons a l ih =>
      rw [List.map_cons, h1 a (List.mem_cons_self _ _),
        ih (fun x hx => h1 x (List.mem_cons_of_mem _ hx))]

theorem wall_eq_user (u : User) (h : u.WellFormed) : u.wall = u := by
  obtain ⟨h1, h2, h3, h4⟩ := h
  cases u
  simp only [User.wall] at *
  rw [Slice.map_eq_self Entry.wall _ (fun x hx => wall_eq_entry x (h1 x hx)),
    Slice.map_eq_self Entry.wall _ (fun x hx => wall_eq_entry x (h2 x hx)),
    Slice.map_eq_self Entry.wall _ (fun x hx => wall_eq_entry x (h3 x hx)),
    Slice.map_eq_self Mutes.wall _ (fun x hx => wall_eq_mutes x (h4 x hx))]

theorem wall_eq_guild (g : Guild) (h : g.WellFormed) : g.wall = g := by
  cases g
  simp only [Guild.wall] at *
  rw [Slice.map_eq_self User.wall _ (fun x hx => wall_eq_user x (h x hx))]

theorem encodable_of_wellFormed_user {u : User} (h : u.WellFormed) : u.Encodable :=
  ⟨fun e he => (h.1 e he).1, fun e he => (h.2.1 e he).1, fun e he => (h.2.2.1 e he).1,
    fun e he => (h.2.2.2 e he).1⟩

theorem encodable_of_wellFormed {g : Guild} (h : g.WellFormed) : g.Encodable :=
  fun u hu => encodable_of_wellFormed_user (h u hu)

theorem times_inRange_of_encodable {g : Guild} (h : g.Encodable) :
    g.times.all GoTime.yearInRange = true := by
  simp only [List.all_eq_true, Guild.times, List.mem_flatMap]
  rintro t ⟨u, hu, ht⟩
  obtain ⟨h1, h2, h3, h4⟩ := h u hu
  simp only [User.times, List.mem_append, List.mem_map] at ht
  rcases ht with ((⟨e, he, rfl⟩ | ⟨e, he, rfl⟩) | ⟨e, he, rfl⟩) | ⟨e, he, rfl⟩
  · exact (h1 e he).2
  · exact (h2 e he).2
  · exact (h3 e he).2
  · exact (h4 e he).2.1

theorem jsonMarshal_encodable (g : Guild) (h : g.Encodable) :
    jsonMarshal g = .ok (.json (encodeGuild g)) := by
  simp only [jsonMarshal, times_inRange_of_encodable h, if_true]

theorem jsonUnmarshal_encodeGuild (g : Guild) (h : g.Encodable) (cur : Guild) :
    jsonUnmarshal (.json (encodeGuild g)) cur = (g.wall, none) := by
  simp only [jsonUnmarshal, decodeGuild_encodeGuild g h cur]

/-! ## The read-modify-write of the `Log` functions -/

theorem Do_GET (w : World) (k : String) (hf : w.faults = []) :
    Do w (.GET k) = (w, (match w.kv k with | some b => Reply.bulk b | none => Reply.nil), none) := by
  cases w with
  | mk kv faults clock ticks log =>
    simp only at hf
    subst hf
    simp only [Do, List.tail_nil]
    cases kv k <;> rfl

theorem Do_SET (w : World) (k : String) (v : Bytes) (hf : w.faults = []) :
    Do w (.SET k v) = ({ w with kv := Function.update w.kv k (some v) }, Reply.statusOK, none) := by
  cases w with
  | mk kv faults clock ticks log =>
    simp only at hf
    subst hf
    simp only [Do, List.tail_nil]

theorem appendLoop_stamp (h : History) (ctx : Context) (ch : discordgo.Channel)
    (userID reason : String) (hc : ctx.Channel = some ch) (us : List User) :
    ∀ w : World, appendLoop h ctx userID reason w us =
      ({ w with ticks := w.ticks + us.countP (fun u => u.ID = userID) },
        some (stampUsers h (ch.Name ++ " / " ++ ch.ID) reason userID w.clock w.ticks us)) := by
  induction us with
  | nil => intro w; simp [appendLoop, stampUsers]
  | cons u us ih =>
    intro w
    by_cases hu : u.ID = userID
    · simp only [appendLoop, hu, if_true, hc, timeNow, ih, stampUsers, List.countP_cons_of_pos,
        decide_True]
      simp only [Prod.mk.injEq, and_true]
      cases w; simp only [World.mk.injEq, true_and, and_true]; omega
    · simp only [appendLoop, hu, if_false, ih, stampUsers]
      simp [List.countP_cons, hu]

theorem appendLoop_noMatch (h : History) (ctx : Context) (userID reason : String)
    (us : List User) (hno : ∀ u ∈ us, u.ID ≠ userID) :
    ∀ w : World, appendLoop h ctx userID reason w us = (w, some us) := by
  induction us with
  | nil => intro w; rfl
  | cons u us ih =>
    intro w
    have hu : u.ID ≠ userID := hno u (List.mem_cons_self _ _)
    simp only [appendLoop, hu, if_false, ih (fun v hv => hno v (List.mem_cons_of_mem _ hv))]

theorem Slice.elems_append {α : Type} (s : Slice α) (x : α) :
    Slice.elems (Slice.append s x) = Slice.elems s ++ [x] := rfl

theorem Slice.map_append {α : Type} (f : α → α) (s : Slice α) (x : α) :
    (Slice.append s x).map (List.map f) = Slice.append (s.map (List.map f)) (f x) := by
  cases s <;> simp [Slice.append, Slice.elems]

theorem User.addEntry_encodable (h : History) (u : User) (e : Entry) (hu : u.Encodable)
    (he : e.Encodable) : (u.addEntry h e).Encodable := by
  obtain ⟨h1, h2, h3, h4⟩ := hu
  cases h
  · refine ⟨?_, h2, h3, h4⟩
    intro x hx
    simp only [User.addEntry, Slice.elems_append, List.mem_append, List.mem_singleton] at hx
    rcases hx with hx | hx
    · exact h1 x hx
    · rw [hx]; exact he
  · refine ⟨h1, ?_, h3, h4⟩
    intro x hx
    simp only [User.addEntry, Slice.elems_append, List.mem_append, List.mem_singleton] at hx
    rcases hx with hx | hx
    · exact h2 x hx
    · rw [hx]; exact he
  · refine ⟨h1, h2, ?_, h4⟩
    intro x hx
    simp only [User.addEntry, Slice.elems_append, List.mem_append, List.mem_singleton] at hx
    rcases hx with hx | hx
    · exact h3 x hx
    · rw [hx]; exact he

theorem User.addEntry_wall (h : History) (u : User) (e : Entry) :
    (u.addEntry h e).wall = (u.wall).addEntry h e.wall := by
  cases h <;> simp only [User.addEntry, User.wall, Slice.map_append]

theorem stampUsers_encodable (h : History) (channel reason userID : String) (clock : Nat → GoTime)
    (hclock : ∀ i, (clock i).Valid ∧ (clock i).yearInRange = true) (us : List User) :
    ∀ n, (∀ u ∈ us, User.Encodable u) →
      ∀ u ∈ stampUsers h channel reason userID clock n us, User.Encodable u := by
  induction us with
  | nil => intro n _ u hu; simp [stampUsers] at hu
  | cons a us ih =>
    intro n hus u hu
    have ha := hus a (List.mem_cons_self _ _)
    have hrest := fun m => ih m (fun v hv => hus v (List.mem_cons_of_mem _ hv))
    unfold stampUsers at hu
    split at hu
    · rcases List.mem_cons.1 hu with hu | hu
      · rw [hu]; exact User.addEntry_encodable h a _ ha (hclock n)
      · exact hrest _ u hu
    · rcases List.mem_cons.1 hu with hu | hu
      · rw [hu]; exact ha
      · exact hrest _ u hu

theorem stampUsers_wall (h : History) (channel reason userID : String) (clock : Nat → GoTime)
    (us : List User) :
    ∀ n, (∀ u ∈ us, User.WellFormed u) →
      (stampUsers h channel reason userID clock n us).map User.wall =
        stampUsers h channel reason userID (fun i => (clock i).wall) n us := by
  induction us with
  | nil => intro n _; rfl
  | cons a us ih =>
    intro n hus
    have ha := wall_eq_user a (hus a (List.mem_cons_self _ _))
    have hrest := fun m => ih m (fun v hv => hus v (List.mem_cons_of_mem _ hv))
    by_cases hid : a.ID = userID
    · simp only [stampUsers, hid, if_true, List.map_cons, hrest, User.addEntry_wall, ha, Entry.wall]
    · simp only [stampUsers, hid, if_false, List.map_cons, hrest, ha]

theorem logEntry_eq (h : History) (w : World) (ctx : Context) (guild : discordgo.Guild)
    (ch : discordgo.Channel) (userID reason : String) (b : Bytes) (D : Guild)
    (hg : ctx.Guild = some guild) (hc : ctx.Channel = some ch) (hf : w.faults = [])
    (hclock : ∀ i, (w.clock i).Valid ∧ (w.clock i).yearInRange = true)
    (hkv : w.kv guild.ID = some b) (hD : jsonUnmarshal b Guild.zero = (D, none)) :
    logEntry h w ctx userID reason =
      ({ w with
          kv := Function.update w.kv guild.ID (some (.json (encodeGuild
            (stampGuild h (ch.Name ++ " / " ++ ch.ID) reason userID w.clock w.ticks D)))),
          ticks := w.ticks + (Slice.elems D.Users).countP (fun u => u.ID = userID) },
        Outcome.returned) := by
  have hwf : D.WellFormed := by
    have := jsonUnmarshal_wellFormed b Guild.zero wellFormed_zeroGuild
    rwa [hD] at this
  have henc : Guild.Encodable
      (stampGuild h (ch.Name ++ " / " ++ ch.ID) reason userID w.clock w.ticks D) := by
    intro u hu
    cases hU : D.Users with
    | none => simp [stampGuild, hU, Slice.elems] at hu
    | some us =>
      simp only [stampGuild, hU, Option.map_some', Slice.elems, Option.getD_some] at hu
      exact stampUsers_encodable h _ reason userID w.clock hclock us w.ticks
        (fun v hv => encodable_of_wellFormed_user (hwf v (by simpa [Slice.elems, hU] using hv))) u hu
  have hm := jsonMarshal_encodable _ henc
  have hr : rangeUsers h ctx userID reason w D.Users =
      ({ w with ticks := w.ticks + (Slice.elems D.Users).countP (fun u => u.ID = userID) },
        some (D.Users.map
          (stampUsers h (ch.Name ++ " / " ++ ch.ID) reason userID w.clock w.ticks))) := by
    cases hU : D.Users with
    | none => simp [rangeUsers, Slice.elems]
    | some us =>
      simp only [rangeUsers, appendLoop_stamp h ctx ch userID reason hc us, Option.map_some',
        Slice.elems, Option.getD_some]
  simp only [stampGuild] at hm
  simp only [logEntry, hg, Do_GET w _ hf, hkv, redisBytes, hD, World.logIfError, hr, putGuild,
    marshalBytes, hm, stampGuild]
  rw [Do_SET _ _ _ (by simpa using hf)]

theorem stampUsers_length (h : History) (channel reason userID : String) (clock : Nat → GoTime)
    (us : List User) : ∀ n, (stampUsers h channel reason userID clock n us).length = us.length := by
  induction us with
  | nil => intro n; rfl
  | cons a us ih =>
    intro n
    unfold stampUsers
    split <;> simp [ih]

theorem stampUsers_getElem? (h : History) (channel reason userID : String) (clock : Nat → GoTime)
    (us : List User) : ∀ (n i : Nat) (u : User), us[i]? = some u →
      (stampUsers h channel reason userID clock n us)[i]? =
        some (if u.ID = userID then
          u.addEntry h { Channel := channel, Reason := reason,
                         Time := clock (n + matchesBefore userID us i) }
        else u) := by
  induction us with
  | nil => intro n i u hu; simp at hu
  | cons a us ih =>
    intro n i u hu
    cases i with
    | zero =>
      simp only [List.getElem?_cons_zero, Option.some.injEq] at hu
      subst hu
      unfold stampUsers
      split <;> simp [matchesBefore]
    | succ i =>
      simp only [List.getElem?_cons_succ] at hu
      unfold stampUsers
      by_cases ha : a.ID = userID
      · simp only [ha, if_true, List.getElem?_cons_succ, ih (n + 1) i u hu, matchesBefore,
          List.take_succ_cons, List.countP_cons_of_pos, decide_True]
        congr 5
        omega
      · simp only [ha, if_false, List.getElem?_cons_succ, ih n i u hu, matchesBefore,
          List.take_succ_cons]
        simp [List.countP_cons, ha]

theorem historyTotal_stampUsers (h : History) (channel reason userID : String)
    (clock : Nat → GoTime) (us : List User) : ∀ n,
      historyTotal h (stampUsers h channel reason userID clock n us) =
        historyTotal h us + us.countP (fun u => u.ID = userID) := by
  induction us with
  | nil => intro n; rfl
  | cons a us ih =>
    intro n
    by_cases ha : a.ID = userID
    · have hlen : (Slice.elems (h.of (a.addEntry h
          { Channel := channel, Reason := reason, Time := clock n }))).length =
          (Slice.elems (h.of a)).length + 1 := by
        cases h <;> simp [History.of, User.addEntry, Slice.elems_append]
      have := ih (n + 1)
      simp only [historyTotal] at this ⊢
      simp only [stampUsers, ha, if_true, List.map_cons, List.sum_cons, this, hlen,
        List.countP_cons_of_pos, decide_True]
      omega
    · have := ih n
      simp only [historyTotal] at this ⊢
      simp only [stampUsers, ha, if_false, List.map_cons, List.sum_cons, this]
      simp [List.countP_cons, ha]
      omega

theorem stampGuild_wall (h : History) (channel reason userID : String) (clock : Nat → GoTime)
    (n : Nat) (D : Guild) (hwf : D.WellFormed) :
    (stampGuild h channel reason userID clock n D).wall =
      stampGuild h channel reason userID (fun i => (clock i).wall) n D := by
  cases hU : D.Users with
  | none => simp only [stampGuild, Guild.wall, hU, Option.map_none']
  | some us =>
    have hus : ∀ u ∈ us, User.WellFormed u := by
      intro u hu; exact hwf u (by simpa [Slice.elems, hU] using hu)
    simp only [stampGuild, Guild.wall, hU, Option.map_some',
      stampUsers_wall h channel reason userID clock us n hus]

theorem storedGuild_update (w : World) (key : String) (g : Guild) (hg : g.Encodable) :
    storedGuild { w with kv := Function.update w.kv key (some (.json (encodeGuild g))) } key =
      some g.wall := by
  simp only [storedGuild, Function.update_same, jsonUnmarshal_encodeGuild g hg]

theorem storedGuild_logEntry (h : History) (w : World) (ctx : Context) (guild : discordgo.Guild)
    (ch : discordgo.Channel) (userID reason : String) (b : Bytes) (D : Guild)
    (hg : ctx.Guild = some guild) (hc : ctx.Channel = some ch) (hf : w.faults = [])
    (hclock : ∀ i, (w.clock i).Valid ∧ (w.clock i).yearInRange = true)
    (hkv : w.kv guild.ID = some b) (hD : jsonUnmarshal b Guild.zero = (D, none)) :
    storedGuild (logEntry h w ctx userID reason).1 guild.ID =
      some (stampGuild h (ch.Name ++ " / " ++ ch.ID) reason userID
        (fun i => (w.clock i).wall) w.ticks D) := by
  have hwf : D.WellFormed := by
    have := jsonUnmarshal_wellFormed b Guild.zero wellFormed_zeroGuild
    rwa [hD] at this
  have henc : Guild.Encodable
      (stampGuild h (ch.Name ++ " / " ++ ch.ID) reason userID w.clock w.ticks D) := by
    intro u hu
    cases hU : D.Users with
    | none => simp [stampGuild, hU, Slice.elems] at hu
    | some us =>
      simp only [stampGuild, hU, Option.map_some', Slice.elems, Option.getD_some] at hu
      exact stampUsers_encodable h _ reason userID w.clock hclock us w.ticks
        (fun v hv => encodable_of_wellFormed_user (hwf v (by simpa [Slice.elems, hU] using hv))) u hu
  rw [logEntry_eq h w ctx guild ch userID reason b D hg hc hf hclock hkv hD]
  simp only [storedGuild, Function.update_same, jsonUnmarshal_encodeGuild _ henc,
    stampGuild_wall _ _ _ _ _ _ _ hwf]

theorem History.log_eq (h : History) : h.log = logEntry h := by
  cases h <;> rfl

theorem elems_stampGuild (h : History) (channel reason userID : String) (clock : Nat → GoTime)
    (n : Nat) (D : Guild) :
    Slice.elems (stampGuild h channel reason userID clock n D).Users =
      stampUsers h channel reason userID clock n (Slice.elems D.Users) := by
  cases hU : D.Users <;> simp [stampGuild, hU, Slice.elems, stampUsers]

theorem History.of_addEntry (h : History) (u : User) (e : Entry) :
    Slice.elems (h.of (u.addEntry h e)) = Slice.elems (h.of u) ++ [e] := by
  cases h <;> rfl

theorem logEntry_noMatch (h : History) (w : World) (ctx : Context) (guild : discordgo.Guild)
    (userID reason : String) (b : Bytes) (D : Guild)
    (hg : ctx.Guild = some guild) (hf : w.faults = [])
    (hkv : w.kv guild.ID = some b) (hD : jsonUnmarshal b Guild.zero = (D, none))
    (hno : ∀ u ∈ Slice.elems D.Users, u.ID ≠ userID) :
    logEntry h w ctx userID reason =
      ({ w with kv := Function.update w.kv guild.ID (some (.json (encodeGuild D))) },
        Outcome.returned) := by
  have hwf : D.WellFormed := by
    have := jsonUnmarshal_wellFormed b Guild.zero wellFormed_zeroGuild
    rwa [hD] at this
  have henc := jsonMarshal_encodable D (encodable_of_wellFormed hwf)
  have hr : rangeUsers h ctx userID reason w D.Users = (w, some D.Users) := by
    cases hU : D.Users with
    | none => rfl
    | some us =>
      have hus : ∀ u ∈ us, u.ID ≠ userID := by
        intro u hu; exact hno u (by simpa [Slice.elems, hU] using hu)
      simp only [rangeUsers, appendLoop_noMatch h ctx userID reason us hus]
  simp only [logEntry, hg, Do_GET w _ hf, hkv, redisBytes, hD, World.logIfError, hr, putGuild,
    marshalBytes, henc, Do_SET _ _ _ hf]

/-! ## Store commands, registration and the existence test -/

theorem Do_fault (w : World) (c : Cmd) (fs : List Bool) (hf : w.faults = true :: fs) :
    Do w c = ({ w with faults := fs }, Reply.nil, some Err.conn) := by
  simp only [Do, hf]

theorem Do_kv_of_fault (w : World) (c : Cmd) (hf : w.faults.head? = some true) :
    (Do w c).1.kv = w.kv := by
  cases hfs : w.faults with
  | nil => rw [hfs] at hf; simp at hf
  | cons f fs =>
    rw [hfs] at hf
    simp only [List.head?_cons, Option.some.injEq] at hf
    subst hf
    rw [Do_fault w c fs hfs]

theorem Do_ok (w : World) (c : Cmd) (hf : w.faults.head? ≠ some true) :
    Do w c =
      (match c with
        | .GET k =>
          match w.kv k with
          | some b => ({ w with faults := w.faults.tail }, Reply.bulk b, none)
          | none => ({ w with faults := w.faults.tail }, Reply.nil, none)
        | .SET k v =>
          ({ w with faults := w.faults.tail, kv := Function.update w.kv k (some v) },
            Reply.statusOK, none)
        | .SETNX k v =>
          match w.kv k with
          | some _ => ({ w with faults := w.faults.tail }, Reply.int64 0, none)
          | none =>
            ({ w with faults := w.faults.tail, kv := Function.update w.kv k (some v) },
              Reply.int64 1, none)
        | .EXISTS k =>
          match w.kv k with
          | some _ => ({ w with faults := w.faults.tail }, Reply.int64 1, none)
          | none => ({ w with faults := w.faults.tail }, Reply.int64 0, none)
        | .DEL k =>
          match w.kv k with
          | some _ =>
            ({ w with faults := w.faults.tail, kv := Function.update w.kv k none },
              Reply.int64 1, none)
          | none => ({ w with faults := w.faults.tail }, Reply.int64 0, none)) := by
  unfold Do
  split
  · rename_i fs hfs
    rw [hfs] at hf
    simp at hf
  · cases c <;> rfl

theorem InitializeUsers_eq (env : Env) (ms : List discordgo.Member) :
    ∀ w : World, (InitializeUsers env w ms).2 = freshUsers env ms ∧
      (InitializeUsers env w ms).1.kv = w.kv ∧
      (InitializeUsers env w ms).1.faults = w.faults := by
  induction ms with
  | nil => intro w; exact ⟨rfl, rfl, rfl⟩
  | cons m ms ih =>
    intro w
    have h1 : ∀ e, (w.logIfError e).kv = w.kv ∧ (w.logIfError e).faults = w.faults := by
      intro e; cases e <;> exact ⟨rfl, rfl⟩
    obtain ⟨i1, i2, i3⟩ := ih (w.logIfError (env.joinedAt m.JoinedAt).2)
    refine ⟨?_, ?_, ?_⟩
    · simp only [InitializeUsers, freshUsers, List.map_cons, i1]
    · simp only [InitializeUsers, i2, (h1 _).1]
    · simp only [InitializeUsers, i3, (h1 _).2]

theorem logIfError_kv (w : World) (e : Option Err) : (w.logIfError e).kv = w.kv := by
  cases e <;> rfl

theorem logIfError_faults (w : World) (e : Option Err) : (w.logIfError e).faults = w.faults := by
  cases e <;> rfl

theorem RegisterNewGuild_kv (env : Env) (w : World) (guild : discordgo.Guild) :
    (RegisterNewGuild env w guild).1.kv =
      if w.faults.head? = some true then w.kv
      else match w.kv guild.ID with
        | some _ => w.kv
        | none => Function.update w.kv guild.ID (some (marshalBytes (freshDoc env guild)).1) := by
  obtain ⟨i1, i2, i3⟩ := InitializeUsers_eq env guild.Members w
  by_cases hf : w.faults.head? = some true
  · rw [if_pos hf]
    simp only [RegisterNewGuild, logIfError_kv]
    rw [Do_kv_of_fault _ _ (by rw [logIfError_faults, i3]; exact hf), logIfError_kv, i2]
  · rw [if_neg hf]
    simp only [RegisterNewGuild, logIfError_kv]
    rw [Do_ok _ _ (by rw [logIfError_faults, i3]; exact hf)]
    simp only [logIfError_kv, i2, i1]
    cases w.kv guild.ID <;> rfl

theorem RegisterNewGuild_kv_of_stored (env : Env) (w : World) (guild : discordgo.Guild)
    (b : Bytes) (hkv : w.kv guild.ID = some b) : (RegisterNewGuild env w guild).1.kv = w.kv := by
  rw [RegisterNewGuild_kv, hkv]
  split <;> rfl

theorem GuildExists_eq (w : World) (guild : discordgo.Guild) :
    (GuildExists w guild).2 = false ∧ (GuildExists w guild).1.kv = w.kv := by
  by_cases hf : w.faults.head? = some true
  · cases hfs : w.faults with
    | nil => rw [hfs] at hf; simp at hf
    | cons f fs =>
      rw [hfs] at hf
      simp only [List.head?_cons, Option.some.injEq] at hf
      subst hf
      rw [GuildExists, Do_fault w _ fs hfs]
      exact ⟨rfl, rfl⟩
  · rw [GuildExists, Do_ok w _ hf]
    rcases hk : w.kv guild.ID with _ | b <;> simp [hk, World.logIfError]

/-! ## Store failures in the `Log` functions -/

theorem logEntry_get_fault (h : History) (w : World) (ctx : Context) (guild : discordgo.Guild)
    (userID reason : String) (fs : List Bool) (hg : ctx.Guild = some guild)
    (hf : w.faults = true :: fs) :
    logEntry h w ctx userID reason = ({ w with faults := fs }, Outcome.panicked (some Err.conn)) := by
  simp only [logEntry, hg, Do_fault w _ fs hf, redisBytes]

theorem logEntry_get_absent (h : History) (w : World) (ctx : Context) (guild : discordgo.Guild)
    (userID reason : String) (hg : ctx.Guild = some guild)
    (hf : w.faults.head? ≠ some true) (hkv : w.kv guild.ID = none) :
    logEntry h w ctx userID reason =
      ({ w with faults := w.faults.tail }, Outcome.panicked (some Err.nilReply)) := by
  simp only [logEntry, hg, Do_ok w _ hf, hkv, redisBytes]

theorem putGuild_fault (w : World) (key : String) (g : Guild) (fs : List Bool)
    (hf : w.faults = true :: fs) :
    (putGuild w key g).kv = w.kv ∧
      (putGuild w key g).log.getLast? = some (LogLine.error Err.conn) := by
  unfold putGuild
  simp only
  rw [Do_fault _ _ fs (by rw [logIfError_faults]; exact hf)]
  refine ⟨?_, ?_⟩
  · exact logIfError_kv w _
  · simp [World.logIfError, World.logError]

theorem rangeUsers_some (h : History) (ctx : Context) (ch : discordgo.Channel)
    (userID reason : String) (hc : ctx.Channel = some ch) (w : World) (users : Slice User) :
    ∃ w1 users1, rangeUsers h ctx userID reason w users = (w1, some users1) ∧
      w1.faults = w.faults ∧ w1.kv = w.kv := by
  cases users with
  | none => exact ⟨w, none, rfl, rfl, rfl⟩
  | some us =>
    have hr : rangeUsers h ctx userID reason w (some us) =
        ({ w with ticks := w.ticks + us.countP (fun u => u.ID = userID) },
          some (some (stampUsers h (ch.Name ++ " / " ++ ch.ID) reason userID w.clock w.ticks us))) := by
      simp only [rangeUsers, appendLoop_stamp h ctx ch userID reason hc us]
    exact ⟨_, _, hr, rfl, rfl⟩

theorem logEntry_set_fault (h : History) (w : World) (ctx : Context) (guild : discordgo.Guild)
    (ch : discordgo.Channel) (userID reason : String) (b : Bytes) (fs : List Bool)
    (hg : ctx.Guild = some guild) (hc : ctx.Channel = some ch)
    (hf : w.faults = false :: true :: fs) (hkv : w.kv guild.ID = some b) :
    (logEntry h w ctx userID reason).2 = Outcome.returned ∧
      (logEntry h w ctx userID reason).1.kv = w.kv ∧
      (logEntry h w ctx userID reason).1.log.getLast? = some (LogLine.error Err.conn) := by
  have hf1 : w.faults.head? ≠ some true := by rw [hf]; simp
  obtain ⟨w1, users1, hr, hrf, hrk⟩ := rangeUsers_some h ctx ch userID reason hc
    (World.logIfError { w with faults := w.faults.tail } (jsonUnmarshal b Guild.zero).2)
    (jsonUnmarshal b Guild.zero).1.Users
  have hw1 : w1.faults = true :: fs := by
    rw [hrf, logIfError_faults]; simp only [hf, List.tail_cons]
  have hk1 : w1.kv = w.kv := by rw [hrk, logIfError_kv]
  have hp := putGuild_fault w1 guild.ID
    { (jsonUnmarshal b Guild.zero).1 with Users := users1 } fs hw1
  simp only [logEntry, hg, Do_ok w _ hf1, hkv, redisBytes, hr]
  exact ⟨trivial, hp.1.trans hk1, hp.2⟩

/-! ## Package `strings` and the dispatcher -/

theorem Index_some_le (sep : List Char) (hsep : sep ≠ []) :
    ∀ (s : List Char) (m : Nat), strings.Index sep s = some m → m + sep.length ≤ s.length := by
  intro s
  induction s with
  | nil =>
    intro m h
    cases sep with
    | nil => exact absurd rfl hsep
    | cons a l => simp [strings.Index, List.isPrefixOf] at h
  | cons c cs ih =>
    intro m h
    unfold strings.Index at h
    split at h
    · rename_i hp
      cases h
      have := List.IsPrefix.length_le ( List.isPrefixOf_iff_prefix.1 hp)
      omega
    · cases hi : strings.Index sep cs with
      | none => rw [hi] at h; simp at h
      | some k =>
        rw [hi] at h
        simp only [Option.map_some', Option.some.injEq] at h
        have := ih k hi
        simp only [List.length_cons]
        omega

theorem splitLoop_stable (sep : List Char) (hsep : sep ≠ []) :
    ∀ (fuel : Nat) (s : List Char), s.length < fuel →
      strings.splitLoop sep (fuel + 1) s = strings.splitLoop sep fuel s := by
  intro fuel
  induction fuel with
  | zero => intro s h; omega
  | succ n ih =>
    intro s h
    rw [strings.splitLoop, strings.splitLoop]
    cases hi : strings.Index sep s with
    | none => rfl
    | some m =>
      simp only
      have hle := Index_some_le sep hsep s m hi
      have hpos : 0 < sep.length := List.length_pos.2 hsep
      rw [ih (s.drop (m + sep.length)) (by rw [List.length_drop]; omega)]

theorem isPrefixOf_append (l r : List Char) : l.isPrefixOf (l ++ r) = true := by
  induction l with
  | nil => simp [List.isPrefixOf]
  | cons a l ih => simp [List.isPrefixOf, ih]

theorem HasPrefix_append (P rest : String) : strings.HasPrefix (P ++ rest) P = true := by
  simp only [strings.HasPrefix, String.data_append, isPrefixOf_append]

theorem TrimPrefix_append (P rest : String) : strings.TrimPrefix (P ++ rest) P = rest := by
  simp only [strings.TrimPrefix, HasPrefix_append, if_true, String.data_append,
    List.drop_left]

theorem Index_space (s : List Char) :
    match strings.Index [' '] s with
    | none => s.takeWhile (fun c => c != ' ') = s
    | some m => s.take m = s.takeWhile (fun c => c != ' ') := by
  induction s with
  | nil => simp [strings.Index, List.isPrefixOf]
  | cons c cs ih =>
    by_cases hc : c = ' '
    · subst hc
      simp [strings.Index, List.isPrefixOf]
    · have hne : (' ' == c) = false := by
        simp only [beq_eq_false_iff_ne, ne_eq]; exact fun h => hc h.symm
      simp only [strings.Index, List.isPrefixOf, hne, Bool.false_and, Bool.false_eq_true,
        if_false]
      cases hi : strings.Index [' '] cs with
      | none =>
        rw [hi] at ih
        simp only [Option.map_none']
        simp only at ih
        simp [List.takeWhile_cons, hc, ih]
      | some m =>
        rw [hi] at ih
        simp only [Option.map_some']
        simp only at ih
        simp [List.takeWhile_cons, hc, ih]

theorem Split_space (rest : String) :
    ∃ tl, strings.Split rest " " =
      String.mk (rest.data.takeWhile (fun c => c != ' ')) :: tl := by
  have h := Index_space rest.data
  have hsep : (" " : String).data = [' '] := rfl
  simp only [strings.Split, hsep, List.cons_ne_nil, if_false, strings.splitLoop]
  cases hi : strings.Index [' '] rest.data with
  | none =>
    rw [hi] at h
    simp only at h
    exact ⟨[], by simp [h]⟩
  | some m =>
    rw [hi] at h
    simp only at h
    refine ⟨List.map String.mk (strings.splitLoop [' '] rest.data.length
      (List.drop (m + [' '].length) rest.data)), ?_⟩
    simp only [List.map_cons, h]

theorem splitLoop_ne_nil (sep : List Char) (fuel : Nat) (s : List Char) :
    strings.splitLoop sep fuel s ≠ [] := by
  cases fuel with
  | zero => simp [strings.splitLoop]
  | succ n =>
    unfold strings.splitLoop
    split <;> simp

theorem Split_ne_nil (s sep : String) (h : sep ≠ "" ∨ s ≠ "") : strings.Split s sep ≠ [] := by
  unfold strings.Split
  split
  · rename_i hsep
    have hs : s ≠ "" := by
      rcases h with h | h
      · exfalso; apply h; cases sep; simp only at hsep; subst hsep; rfl
      · exact h
    have : s.data ≠ [] := by
      intro hd; apply hs; cases s; simp only at hd; subst hd; rfl
    simpa using this
  · simpa using splitLoop_ne_nil _ _ _

theorem sliceFrom1_of_ne_nil {α : Type} (l : List α) (h : l ≠ []) :
    sliceFrom1 l = some l.tail := by
  cases l with
  | nil => exact absurd rfl h
  | cons a l => rfl

theorem resolvePrefix_guild (env : Env) (w w1 : World) (s : Session) (channel : discordgo.Channel)
    (P : String) (hk : channel.Kind = discordgo.ChannelType.GuildText)
    (hp : resolvePrefix env w s channel = (w1, some P)) :
    ∃ guild, s.guilds channel.GuildID = some guild := by
  unfold resolvePrefix at hp
  rw [if_pos hk] at hp
  cases hg : s.guilds channel.GuildID with
  | none => rw [hg] at hp; simp at hp
  | some guild => exact ⟨guild, rfl⟩

theorem resolvePrefix_absent (env : Env) (w : World) (s : Session) (channel : discordgo.Channel)
    (guild : discordgo.Guild) (hk : channel.Kind = discordgo.ChannelType.GuildText)
    (hgd : s.guilds channel.GuildID = some guild) (hkv : w.kv guild.ID = none) :
    ∃ w1, resolvePrefix env w s channel = (w1, some "") := by
  unfold resolvePrefix
  rw [if_pos hk]
  simp only [hgd]
  by_cases hf : w.faults.head? = some true
  · cases hfs : w.faults with
    | nil => rw [hfs] at hf; simp at hf
    | cons f fs =>
      rw [hfs] at hf
      simp only [List.head?_cons, Option.some.injEq] at hf
      subst hf
      rw [Do_fault w _ fs hfs]
      exact ⟨_, rfl⟩
  · rw [Do_ok w _ hf]
    simp only [hkv]
    exact ⟨_, rfl⟩

theorem resolvePrefix_dm (env : Env) (w : World) (s : Session) (channel : discordgo.Channel)
    (hk : channel.Kind ≠ discordgo.ChannelType.GuildText) :
    resolvePrefix env w s channel = (w, some env.confPrefix) := by
  unfold resolvePrefix
  rw [if_neg hk]

theorem resolvePrefix_stored (env : Env) (w : World) (s : Session) (channel : discordgo.Channel)
    (guild : discordgo.Guild) (b : Bytes) (D : Guild)
    (hk : channel.Kind = discordgo.ChannelType.GuildText)
    (hgd : s.guilds channel.GuildID = some guild) (hf : w.faults = [])
    (hkv : w.kv guild.ID = some b) (hD : jsonUnmarshal b Guild.zero = (D, none)) :
    resolvePrefix env w s channel = (w, some D.GuildPrefix) := by
  unfold resolvePrefix
  rw [if_pos hk]
  simp only [hgd, Do_GET w _ hf, hkv, redisBytes, hD, World.logIfError]

theorem MessageCreate_dropped_at_gate (env : Env) (w w1 : World) (s : Session) (m : Message)
    (channel : discordgo.Channel) (P : String) (hch : s.channels m.ChannelID = some channel)
    (hp : resolvePrefix env w s channel = (w1, some P))
    (hno : strings.HasPrefix m.Content P = false) :
    MessageCreate env w s m = (w1, Dispatch.dropped) := by
  simp only [MessageCreate, buildContext, hch, hp, hno, if_true]

theorem addEntry_frame (h : History) (u : User) (e : Entry) :
    (h = History.Warnings → (u.addEntry h e).Warnings = some (Slice.elems u.Warnings ++ [e])) ∧
    (h = History.Kicks → (u.addEntry h e).Kicks = some (Slice.elems u.Kicks ++ [e])) ∧
    (h = History.Bans → (u.addEntry h e).Bans = some (Slice.elems u.Bans ++ [e])) ∧
    (h ≠ History.Warnings → (u.addEntry h e).Warnings = u.Warnings) ∧
    (h ≠ History.Kicks → (u.addEntry h e).Kicks = u.Kicks) ∧
    (h ≠ History.Bans → (u.addEntry h e).Bans = u.Bans) ∧
    (u.addEntry h e).Mutes = u.Mutes ∧
    (u.addEntry h e).Username = u.Username ∧
    (u.addEntry h e).Discriminator = u.Discriminator ∧
    (u.addEntry h e).Nickname = u.Nickname ∧
    (u.addEntry h e).ID = u.ID ∧
    (u.addEntry h e).Age = u.Age ∧
    (u.addEntry h e).JoinedAt = u.JoinedAt ∧
    (u.addEntry h e).PreviousUsernames = u.PreviousUsernames ∧
    (u.addEntry h e).PreviousNicknames = u.PreviousNicknames ∧
    (u.addEntry h e).Roles = u.Roles := by
  cases h <;> simp [User.addEntry, Slice.append]

/-! ## The sample store -/

theorem sampleBytes_decodes : jsonUnmarshal sampleBytes Guild.zero = (sampleDoc, none) := by
  have hwf : sampleDoc.WellFormed := by decide
  rw [sampleBytes, jsonUnmarshal_encodeGuild sampleDoc (encodable_of_wellFormed hwf), wall_eq_guild sampleDoc hwf]

theorem sampleNow_encodable : ∀ i : Nat, (sampleWorld.clock i).Valid ∧
    (sampleWorld.clock i).yearInRange = true := by
  have h : sampleNow.Valid ∧ sampleNow.yearInRange = true := by decide
  exact fun _ => h

/-! ## Appending a moderation entry -/

/-- C1: for each of `LogWarning`, `LogKick` and `LogBan` (`h.log`), when the
store holds under `ctx.Guild.ID` a value that decodes to the document `D`,
the document read back after the call has the same number of records, and at
every position: a record whose ID is `userID` has its history of the kind
equal to the earlier history followed by one entry with the channel text
`Name / ID`, the reason, and the clock reading `time.Now()` gave for that
record (as the encoding carries it: without monotonic reading); a record
whose ID differs is unchanged. -/
theorem Log_appends_one_entry (h : History) (w : World) (ctx : Context)
    (guild : discordgo.Guild) (ch : discordgo.Channel) (userID reason : String) (b : Bytes)
    (D : Guild) (hg : ctx.Guild = some guild) (hc : ctx.Channel = some ch)
    (hf : w.faults = []) (hclock : ∀ i, (w.clock i).Valid ∧ (w.clock i).yearInRange = true)
    (hkv : w.kv guild.ID = some b) (hD : jsonUnmarshal b Guild.zero = (D, none)) :
    ∃ D1, storedGuild (h.log w ctx userID reason).1 guild.ID = some D1 ∧
      (Slice.elems D1.Users).length = (Slice.elems D.Users).length ∧
      ∀ (i : Nat) (u : User), (Slice.elems D.Users)[i]? = some u →
        ∃ u1, (Slice.elems D1.Users)[i]? = some u1 ∧
          (u.ID = userID →
            Slice.elems (h.of u1) = Slice.elems (h.of u) ++
              [{ Channel := ch.Name ++ " / " ++ ch.ID, Reason := reason,
                 Time := (w.clock (w.ticks + matchesBefore userID (Slice.elems D.Users) i)).wall }]) ∧
          (u.ID ≠ userID → u1 = u) := by
  refine ⟨stampGuild h (ch.Name ++ " / " ++ ch.ID) reason userID
    (fun i => (w.clock i).wall) w.ticks D, ?_, ?_, ?_⟩
  · rw [History.log_eq]
    exact storedGuild_logEntry h w ctx guild ch userID reason b D hg hc hf hclock hkv hD
  · rw [elems_stampGuild, stampUsers_length]
  · intro i u hu
    have key := stampUsers_getElem? h (ch.Name ++ " / " ++ ch.ID) reason userID
      (fun i => (w.clock i).wall) _ w.ticks i u hu
    rw [← elems_stampGuild] at key
    by_cases hid : u.ID = userID
    · rw [if_pos hid] at key
      exact ⟨_, key, fun _ => History.of_addEntry h u _, fun hne => absurd hid hne⟩
    · rw [if_neg hid] at key
      exact ⟨_, key, fun he => absurd he hid, fun _ => rfl⟩

/-- C2: for each of `LogWarning`, `LogKick` and `LogBan`, when the store
holds under `ctx.Guild.ID` a value that decodes to `D` and no record of `D`
has the ID `userID`, the call returns without panic, logs nothing, and the
document read back afterwards is `D`. -/
theorem Log_absent_member_noop (h : History) (w : World) (ctx : Context)
    (guild : discordgo.Guild) (userID reason : String) (b : Bytes) (D : Guild)
    (hg : ctx.Guild = some guild) (hf : w.faults = [])
    (hkv : w.kv guild.ID = some b) (hD : jsonUnmarshal b Guild.zero = (D, none))
    (hno : ∀ u ∈ Slice.elems D.Users, u.ID ≠ userID) :
    (h.log w ctx userID reason).2 = Outcome.returned ∧
      (h.log w ctx userID reason).1.log = w.log ∧
      storedGuild (h.log w ctx userID reason).1 guild.ID = some D := by
  have hwf : D.WellFormed := by
    have := jsonUnmarshal_wellFormed b Guild.zero wellFormed_zeroGuild
    rwa [hD] at this
  rw [History.log_eq, logEntry_noMatch h w ctx guild userID reason b D hg hf hkv hD hno]
  refine ⟨rfl, rfl, ?_⟩
  rw [storedGuild_update w guild.ID D (encodable_of_wellFormed hwf), wall_eq_guild D hwf]

/-- C10: for each of `LogWarning`, `LogKick` and `LogBan`, when the store
holds under `ctx.Guild.ID` a value that decodes to `D`, the document read
back after the call differs from `D` in its user list only; the list is nil
exactly when it was, has the same length, and at every position a record
whose ID is `userID` has the history of the kind equal to the earlier one
followed by one entry, and its two other histories of the three, its
`Mutes` and its nine profile fields (`Username`, `Discriminator`,
`Nickname`, `ID`, `Age`, `JoinedAt`, `PreviousUsernames`,
`PreviousNicknames`, `Roles`) equal to the earlier ones; any other record is
unchanged; the entries of that kind grow in total by the number of records
whose ID is `userID`. -/
theorem Log_appends_to_every_match (h : History) (w : World) (ctx : Context)
    (guild : discordgo.Guild) (ch : discordgo.Channel) (userID reason : String) (b : Bytes)
    (D : Guild) (hg : ctx.Guild = some guild) (hc : ctx.Channel = some ch)
    (hf : w.faults = []) (hclock : ∀ i, (w.clock i).Valid ∧ (w.clock i).yearInRange = true)
    (hkv : w.kv guild.ID = some b) (hD : jsonUnmarshal b Guild.zero = (D, none)) :
    ∃ D1, storedGuild (h.log w ctx userID reason).1 guild.ID = some D1 ∧
      D1 = { D with Users := D1.Users } ∧
      (D1.Users = none ↔ D.Users = none) ∧
      (Slice.elems D1.Users).length = (Slice.elems D.Users).length ∧
      (∀ (i : Nat) (u : User), (Slice.elems D.Users)[i]? = some u →
        ∃ u1, (Slice.elems D1.Users)[i]? = some u1 ∧
          (u.ID = userID → ∃ e : Entry,
            (h = History.Warnings → u1.Warnings = some (Slice.elems u.Warnings ++ [e])) ∧
            (h = History.Kicks → u1.Kicks = some (Slice.elems u.Kicks ++ [e])) ∧
            (h = History.Bans → u1.Bans = some (Slice.elems u.Bans ++ [e])) ∧
            (h ≠ History.Warnings → u1.Warnings = u.Warnings) ∧
            (h ≠ History.Kicks → u1.Kicks = u.Kicks) ∧
            (h ≠ History.Bans → u1.Bans = u.Bans) ∧
            u1.Mutes = u.Mutes ∧
            u1.Username = u.Username ∧
            u1.Discriminator = u.Discriminator ∧
            u1.Nickname = u.Nickname ∧
            u1.ID = u.ID ∧
            u1.Age = u.Age ∧
            u1.JoinedAt = u.JoinedAt ∧
            u1.PreviousUsernames = u.PreviousUsernames ∧
            u1.PreviousNicknames = u.PreviousNicknames ∧
            u1.Roles = u.Roles) ∧
          (u.ID ≠ userID → u1 = u)) ∧
      historyTotal h (Slice.elems D1.Users) =
        historyTotal h (Slice.elems D.Users) +
          (Slice.elems D.Users).countP (fun u => u.ID = userID) := by
  refine ⟨stampGuild h (ch.Name ++ " / " ++ ch.ID) reason userID
    (fun i => (w.clock i).wall) w.ticks D, ?_, ?_, ?_, ?_, ?_, ?_⟩
  · rw [History.log_eq]
    exact storedGuild_logEntry h w ctx guild ch userID reason b D hg hc hf hclock hkv hD
  · rfl
  · cases hU : D.Users <;> simp [stampGuild, hU]
  · rw [elems_stampGuild, stampUsers_length]
  · intro i u hu
    have key := stampUsers_getElem? h (ch.Name ++ " / " ++ ch.ID) reason userID
      (fun i => (w.clock i).wall) _ w.ticks i u hu
    rw [← elems_stampGuild] at key
    by_cases hid : u.ID = userID
    · rw [if_pos hid] at key
      exact ⟨_, key, fun _ => ⟨_, addEntry_frame h u _⟩, fun hne => absurd hid hne⟩
    · rw [if_neg hid] at key
      exact ⟨_, key, fun he => absurd he hid, fun _ => rfl⟩
  · rw [elems_stampGuild, historyTotal_stampUsers]

/-- C1 at sample inputs: `LogWarning` for `u1` on the sample store. -/
theorem Log_appends_one_entry_witness :
    ∃ D1, storedGuild (History.Warnings.log sampleWorld sampleCtx "u1" "spam").1 sampleGuild.ID =
        some D1 ∧
      (Slice.elems D1.Users).length = (Slice.elems sampleDoc.Users).length ∧
      ∀ (i : Nat) (u : User), (Slice.elems sampleDoc.Users)[i]? = some u →
        ∃ u1, (Slice.elems D1.Users)[i]? = some u1 ∧
          (u.ID = "u1" →
            Slice.elems (History.Warnings.of u1) = Slice.elems (History.Warnings.of u) ++
              [{ Channel := sampleChannel.Name ++ " / " ++ sampleChannel.ID, Reason := "spam",
                 Time := (sampleWorld.clock (sampleWorld.ticks +
                   matchesBefore "u1" (Slice.elems sampleDoc.Users) i)).wall }]) ∧
          (u.ID ≠ "u1" → u1 = u) :=
  Log_appends_one_entry History.Warnings sampleWorld sampleCtx sampleGuild sampleChannel "u1"
    "spam" sampleBytes sampleDoc rfl rfl rfl sampleNow_encodable rfl sampleBytes_decodes

/-- C2 at sample inputs: `LogKick` for the absent ID `u9` on the sample store. -/
theorem Log_absent_member_noop_witness :
    (History.Kicks.log sampleWorld sampleCtx "u9" "spam").2 = Outcome.returned ∧
      (History.Kicks.log sampleWorld sampleCtx "u9" "spam").1.log = sampleWorld.log ∧
      storedGuild (History.Kicks.log sampleWorld sampleCtx "u9" "spam").1 sampleGuild.ID =
        some sampleDoc :=
  Log_absent_member_noop History.Kicks sampleWorld sampleCtx sampleGuild "u9" "spam" sampleBytes
    sampleDoc rfl rfl rfl sampleBytes_decodes (by decide)

/-- C10 at sample inputs: `LogBan` for `u1` on the sample store; the prefix
stays, the bans grow by one in total, and the record of `u1` keeps its
name, its warnings, its kicks and its mutes. -/
theorem Log_appends_to_every_match_witness :
    ∃ D1, storedGuild (History.Bans.log sampleWorld sampleCtx "u1" "raid").1 sampleGuild.ID =
        some D1 ∧
      D1.GuildPrefix = "?" ∧
      historyTotal History.Bans (Slice.elems D1.Users) = 2 ∧
      ∃ u1, (Slice.elems D1.Users)[0]? = some u1 ∧ u1.Username = "alice" ∧
        u1.Warnings = sampleUser.Warnings ∧ u1.Kicks = sampleUser.Kicks ∧
        u1.Mutes = sampleUser.Mutes := by
  obtain ⟨D1, h1, h2, _, _, h5, h6⟩ := Log_appends_to_every_match History.Bans sampleWorld
    sampleCtx sampleGuild sampleChannel "u1" "raid" sampleBytes sampleDoc rfl rfl rfl
    sampleNow_encodable rfl sampleBytes_decodes
  obtain ⟨u1, hu1, hm, _⟩ := h5 0 sampleUser rfl
  obtain ⟨e, _, _, _, hw, hk, _, hmu, hn, _⟩ := hm rfl
  refine ⟨D1, h1, ?_, ?_, u1, hu1, hn, hw (by decide), hk (by decide), hmu⟩
  · rw [h2]; rfl
  · rw [h6]; decide

/-! ## Registration, the existence test and the guild lifecycle -/

/-- C3: `RegisterNewGuild` is idempotent on the store. When the SETNX of the
first call reaches the store, the key space after a second call equals the
key space after the first; and when a value is already stored under
`guild.ID`, one call leaves the whole key space, that value included,
unchanged (whatever the connection does). -/
theorem RegisterNewGuild_idempotent (env : Env) (w : World) (guild : discordgo.Guild) :
    (w.faults.head? ≠ some true →
      (RegisterNewGuild env (RegisterNewGuild env w guild).1 guild).1.kv =
        (RegisterNewGuild env w guild).1.kv) ∧
    (∀ b, w.kv guild.ID = some b → (RegisterNewGuild env w guild).1.kv = w.kv) := by
  refine ⟨?_, fun b hb => RegisterNewGuild_kv_of_stored env w guild b hb⟩
  intro hf
  have h1 := RegisterNewGuild_kv env w guild
  rw [if_neg hf] at h1
  have hstored : ∃ b, (RegisterNewGuild env w guild).1.kv guild.ID = some b := by
    rw [h1]
    rcases hk : w.kv guild.ID with _ | b
    · exact ⟨(marshalBytes (freshDoc env guild)).1, by simp only [Function.update_same]⟩
    · exact ⟨b, by simp only [hk]⟩
  obtain ⟨b, hb⟩ := hstored
  exact RegisterNewGuild_kv_of_stored env _ guild b hb

/-- C3 at sample inputs: registering the sample guild twice in an empty
store, and once in a store that holds the sample document. -/
theorem RegisterNewGuild_idempotent_witness :
    (RegisterNewGuild sampleEnv (RegisterNewGuild sampleEnv emptyWorld sampleGuild).1 sampleGuild).1.kv =
        (RegisterNewGuild sampleEnv emptyWorld sampleGuild).1.kv ∧
      (RegisterNewGuild sampleEnv sampleWorld sampleGuild).1.kv = sampleWorld.kv :=
  ⟨(RegisterNewGuild_idempotent sampleEnv emptyWorld sampleGuild).1 (by decide),
    (RegisterNewGuild_idempotent sampleEnv sampleWorld sampleGuild).2 sampleBytes rfl⟩

/-- C7 (the code at the failing input): when the key `guild.ID` exists and
the EXISTS command reaches the store, the reply is the int64 one and
`GuildExists` returns false. -/
theorem GuildExists_false_on_existing_key (w : World) (guild : discordgo.Guild) (b : Bytes)
    (hkv : w.kv guild.ID = some b) (hf : w.faults.head? ≠ some true) :
    (Do w (.EXISTS guild.ID)).2 = (Reply.int64 1, none) ∧ (GuildExists w guild).2 = false := by
  refine ⟨?_, (GuildExists_eq w guild).1⟩
  rw [Do_ok w _ hf]
  simp only [hkv]

/-- C7 at the sample store, which holds a document under `g1`. -/
theorem GuildExists_false_on_existing_key_witness :
    (Do sampleWorld (.EXISTS "g1")).2 = (Reply.int64 1, none) ∧
      (GuildExists sampleWorld sampleGuild).2 = false :=
  GuildExists_false_on_existing_key sampleWorld sampleGuild sampleBytes rfl (by decide)

/-- C8 (the code at the failing input): when a value is stored under
`guild.ID`, `GuildDelete` returns without deleting, and after `GuildDelete`
and `GuildCreate` the key space is what it was, the old value included. -/
theorem GuildDelete_GuildCreate_keeps_document (env : Env) (w : World)
    (guild : discordgo.Guild) (b : Bytes) (hkv : w.kv guild.ID = some b) :
    (GuildDelete w guild).2 = Outcome.returned ∧ (GuildDelete w guild).1.kv = w.kv ∧
      (GuildCreate env (GuildDelete w guild).1 guild).1.kv = w.kv := by
  have hdel : GuildDelete w guild = ((GuildExists w guild).1, Outcome.returned) := by
    have h2 := (GuildExists_eq w guild).1
    unfold GuildDelete
    split
    · rename_i w1 heq; rw [heq]
    · rename_i w1 heq; rw [heq] at h2; cases h2
  have hkv1 : (GuildExists w guild).1.kv = w.kv := (GuildExists_eq w guild).2
  refine ⟨by rw [hdel], by rw [hdel]; exact hkv1, ?_⟩
  rw [hdel]
  have h3 := GuildExists_eq (GuildExists w guild).1 guild
  have hcr : (GuildCreate env (GuildExists w guild).1 guild).1.kv =
      (RegisterNewGuild env (GuildExists (GuildExists w guild).1 guild).1 guild).1.kv := by
    unfold GuildCreate
    split
    · rename_i w1 heq; rw [heq] at h3; cases h3.1
    · rename_i w1 heq; rw [heq]
  rw [hcr, RegisterNewGuild_kv_of_stored env _ guild b (by rw [h3.2, hkv1]; exact hkv), h3.2, hkv1]

/-- C8 at the sample store: after `GuildDelete` and `GuildCreate` the
document read back is still the sample document, history included, which is
not the document a registration builds. -/
theorem GuildDelete_GuildCreate_keeps_document_witness :
    storedGuild (GuildCreate sampleEnv (GuildDelete sampleWorld sampleGuild).1 sampleGuild).1 "g1" =
        storedGuild sampleWorld "g1" ∧
      sampleDoc ≠ freshDoc sampleEnv sampleGuild := by
  refine ⟨?_, by decide⟩
  unfold storedGuild
  rw [(GuildDelete_GuildCreate_keeps_document sampleEnv sampleWorld sampleGuild sampleBytes rfl).2.2]

/-! ## Round trip of the document encoding -/

/-- C4: for every well-formed document `D`, `json.Marshal` succeeds and
`json.Unmarshal` of its result into a zero `Guild` returns no error and
leaves exactly `D`. -/
theorem jsonUnmarshal_jsonMarshal (D : Guild) (h : D.WellFormed) :
    ∃ b, jsonMarshal D = .ok b ∧ jsonUnmarshal b Guild.zero = (D, none) := by
  refine ⟨.json (encodeGuild D), jsonMarshal_encodable D (encodable_of_wellFormed h), ?_⟩
  rw [jsonUnmarshal_encodeGuild D (encodable_of_wellFormed h), wall_eq_guild D h]

/-- C4 at the sample document, which holds entries of all four kinds. -/
theorem jsonUnmarshal_jsonMarshal_witness :
    sampleDoc.WellFormed ∧
      ∃ b, jsonMarshal sampleDoc = .ok b ∧ jsonUnmarshal b Guild.zero = (sampleDoc, none) :=
  ⟨by decide, jsonUnmarshal_jsonMarshal sampleDoc (by decide)⟩

/-! ## The dispatcher: command name, arguments and the prefix test -/

/-- C5 as amended: in `MessageCreate`, when the channel resolves, the prefix
resolved is `P`, the content is `P ++ rest`, and the delimiter of the command
fetched or `rest` is non-empty, the context is built with `ctx.Name` the part
of `rest` before its first space (all of `rest` when it has none),
`ctx.Command` the command fetched for that name, and `ctx.Args` the pieces of
`strings.Split(rest, ctx.Command.ArgsDelim)` without the first one. -/
theorem buildContext_name_and_args (env : Env) (w w1 : World) (s : Session) (m : Message)
    (channel : discordgo.Channel) (P rest : String)
    (hch : s.channels m.ChannelID = some channel)
    (hp : resolvePrefix env w s channel = (w1, some P))
    (hm : m.Content = P ++ rest)
    (hd : (env.FetchCommand (String.mk (rest.data.takeWhile (fun c => c != ' ')))).ArgsDelim ≠ ""
      ∨ rest ≠ "") :
    ∃ w2 ctx, buildContext env w s m = (w2, .ok (channel, ctx)) ∧
      ctx.Name = String.mk (rest.data.takeWhile (fun c => c != ' ')) ∧
      ctx.Command = env.FetchCommand ctx.Name ∧
      ctx.Args = (strings.Split rest ctx.Command.ArgsDelim).tail := by
  obtain ⟨tl, hsplit⟩ := Split_space rest
  have hargs := sliceFrom1_of_ne_nil _ (Split_ne_nil rest _ hd)
  by_cases hk : channel.Kind = discordgo.ChannelType.GuildText
  · obtain ⟨guild, hguild⟩ := resolvePrefix_guild env w w1 s channel P hk hp
    refine ⟨(RegisterNewGuild env w1 guild).1,
      { Content := m.Content, Channel := some channel, Guild := some guild,
        Name := String.mk (rest.data.takeWhile (fun c => c != ' ')),
        Command := env.FetchCommand (String.mk (rest.data.takeWhile (fun c => c != ' '))),
        Args := (strings.Split rest (env.FetchCommand
          (String.mk (rest.data.takeWhile (fun c => c != ' ')))).ArgsDelim).tail }, ?_, rfl, rfl, rfl⟩
    simp only [buildContext, hch, hp, hm, HasPrefix_append, TrimPrefix_append, hsplit, hk,
      if_true, hguild, Bool.true_eq_false, if_false]
    rw [hargs]
  · refine ⟨w1,
      { Content := m.Content, Channel := some channel, Guild := none,
        Name := String.mk (rest.data.takeWhile (fun c => c != ' ')),
        Command := env.FetchCommand (String.mk (rest.data.takeWhile (fun c => c != ' '))),
        Args := (strings.Split rest (env.FetchCommand
          (String.mk (rest.data.takeWhile (fun c => c != ' ')))).ArgsDelim).tail }, ?_, rfl, rfl, rfl⟩
    simp only [buildContext, hch, hp, hm, HasPrefix_append, TrimPrefix_append, hsplit, hk,
      if_false, Bool.true_eq_false]
    rw [hargs]

/-- C5 at the inputs of the specification: prefix `+` (the registered sample
guild), content `+warn @user spam`, delimiter a space. -/
theorem buildContext_name_and_args_witness :
    ∃ w2 ctx, buildContext sampleEnv registeredWorld sampleSession
        { ChannelID := "c1", Content := "+warn @user spam" } = (w2, .ok (sampleChannel, ctx)) ∧
      ctx.Name = "warn" ∧ ctx.Args = ["@user", "spam"] := by
  obtain ⟨w2, ctx, h1, h2, h3, h4⟩ := buildContext_name_and_args sampleEnv registeredWorld
    (resolvePrefix sampleEnv registeredWorld sampleSession sampleChannel).1 sampleSession
    { ChannelID := "c1", Content := "+warn @user spam" } sampleChannel "+" "warn @user spam"
    rfl (Prod.ext rfl (by decide)) rfl (Or.inr (by decide))
  refine ⟨w2, ctx, h1, h2.trans (by decide), ?_⟩
  rw [h4, h3, h2]
  decide

/-- C5 as stated fails: in the registered sample guild the prefix resolved is
`+`; for the content `+` (so `rest` is empty) and a command whose delimiter
is empty, `strings.Split` gives no piece, the slice `[1:]` panics and no
argument list is built. -/
theorem MessageCreate_panics_on_empty_delimiter :
    (resolvePrefix emptyDelimEnv registeredWorld sampleSession sampleChannel).2 = some "+" ∧
      strings.Split "" "" = [] ∧
      (MessageCreate emptyDelimEnv registeredWorld sampleSession
        { ChannelID := "c1", Content := "+" }).2 = Dispatch.panicked := by
  decide

/-- C6 (the code at the failing input): in a guild text channel whose guild
has no document stored, the prefix resolved is the empty string, whatever the
connection does; so the message `hello` passes the prefix test and, with a
command that splits on a space and passes the validity check, reaches the
call. -/
theorem MessageCreate_unregistered_guild (env : Env) (w : World) (s : Session)
    (channel : discordgo.Channel) (guild : discordgo.Guild) (cid : String)
    (hch : s.channels cid = some channel)
    (hk : channel.Kind = discordgo.ChannelType.GuildText)
    (hgd : s.guilds channel.GuildID = some guild) (hkv : w.kv guild.ID = none)
    (hdelim : (env.FetchCommand "hello").ArgsDelim = " ")
    (hvalid : ∀ c, env.CommandIsValid c = true) :
    (resolvePrefix env w s channel).2 = some "" ∧
      ∃ w2 ctx, MessageCreate env w s { ChannelID := cid, Content := "hello" } =
          (w2, Dispatch.called (env.FetchCommandName "hello") ctx) ∧
        ctx.Name = "hello" ∧ ctx.Args = [] := by
  obtain ⟨w1, hp⟩ := resolvePrefix_absent env w s channel guild hk hgd hkv
  refine ⟨by rw [hp], ?_⟩
  have h1 : strings.HasPrefix "hello" "" = true := by decide
  have h2 : strings.TrimPrefix "hello" "" = "hello" := by decide
  have h3 : strings.Split "hello" " " = ["hello"] := by decide
  refine ⟨(RegisterNewGuild env w1 guild).1,
    { Content := "hello", Channel := some channel, Guild := some guild, Name := "hello",
      Command := env.FetchCommand "hello", Args := [] }, ?_, rfl, rfl⟩
  simp only [MessageCreate, buildContext, hch, hp, h1, h2, h3, hk, hgd, hdelim, sliceFrom1,
    hvalid, Bool.true_eq_false, if_false, if_true, and_false]

/-- C6 at sample inputs: `hello` in the sample channel with an empty store. -/
theorem MessageCreate_unregistered_guild_witness :
    (resolvePrefix sampleEnv emptyWorld sampleSession sampleChannel).2 = some "" ∧
      ∃ w2 ctx, MessageCreate sampleEnv emptyWorld sampleSession
          { ChannelID := "c1", Content := "hello" } = (w2, Dispatch.called "hello" ctx) ∧
        ctx.Name = "hello" ∧ ctx.Args = [] :=
  MessageCreate_unregistered_guild sampleEnv emptyWorld sampleSession sampleChannel sampleGuild
    "c1" rfl rfl rfl rfl rfl (fun _ => rfl)

/-! ## Store failures during an append -/

/-- C9 as amended: for each of `LogWarning`, `LogKick` and `LogBan` with
`ctx.Guild` set, a GET that fails on the connection makes the call panic
with the connection error, and a GET that finds no value makes it panic with
redigo's nil-reply error, in both cases with the key space unchanged (no SET
is issued); when the GET succeeds and the SET fails on the connection (with
`ctx.Channel` set), the call returns normally, the key space is unchanged and
the last line logged is the connection error. -/
theorem Log_store_failures (h : History) (w : World) (ctx : Context) (guild : discordgo.Guild)
    (userID reason : String) (hg : ctx.Guild = some guild) :
    (∀ fs, w.faults = true :: fs →
      (h.log w ctx userID reason).2 = Outcome.panicked (some Err.conn) ∧
        (h.log w ctx userID reason).1.kv = w.kv) ∧
    (w.faults.head? ≠ some true → w.kv guild.ID = none →
      (h.log w ctx userID reason).2 = Outcome.panicked (some Err.nilReply) ∧
        (h.log w ctx userID reason).1.kv = w.kv) ∧
    (∀ ch b fs, ctx.Channel = some ch → w.faults = false :: true :: fs →
      w.kv guild.ID = some b →
      (h.log w ctx userID reason).2 = Outcome.returned ∧
        (h.log w ctx userID reason).1.kv = w.kv ∧
        (h.log w ctx userID reason).1.log.getLast? = some (LogLine.error Err.conn)) := by
  rw [History.log_eq]
  refine ⟨?_, ?_, ?_⟩
  · intro fs hf
    rw [logEntry_get_fault h w ctx guild userID reason fs hg hf]
    exact ⟨rfl, rfl⟩
  · intro hf hkv
    rw [logEntry_get_absent h w ctx guild userID reason hg hf hkv]
    exact ⟨rfl, rfl⟩
  · intro ch b fs hc hf hkv
    exact logEntry_set_fault h w ctx guild ch userID reason b fs hg hc hf hkv

/-- C9 at sample inputs: a failing GET, an absent key, and a failing SET,
each for `LogWarning` in the sample context. -/
theorem Log_store_failures_witness :
    (LogWarning { sampleWorld with faults := [true] } sampleCtx "u1" "spam").2 =
        Outcome.panicked (some Err.conn) ∧
      (LogWarning emptyWorld sampleCtx "u1" "spam").1.kv = emptyWorld.kv ∧
      (LogWarning { sampleWorld with faults := [false, true] } sampleCtx "u1" "spam").2 =
        Outcome.returned :=
  ⟨((Log_store_failures History.Warnings { sampleWorld with faults := [true] } sampleCtx
      sampleGuild "u1" "spam" rfl).1 [] rfl).1,
   ((Log_store_failures History.Warnings emptyWorld sampleCtx sampleGuild "u1" "spam" rfl).2.1
      (by decide) rfl).2,
   ((Log_store_failures History.Warnings { sampleWorld with faults := [false, true] } sampleCtx
      sampleGuild "u1" "spam" rfl).2.2 sampleChannel sampleBytes [] rfl rfl rfl).1⟩

/-- C9 as stated fails: with no value stored under the guild's key, the GET
of `LogWarning` gives a nil reply and the call panics. -/
theorem LogWarning_panics_on_absent_key :
    emptyWorld.kv "g1" = none ∧
      (LogWarning emptyWorld sampleCtx "u1" "spam").2 = Outcome.panicked (some Err.nilReply) :=
  ⟨rfl, by decide⟩


end Nagato
